import Mathlib

/-
  Verification development for the runtime core of the paperclips
  repository: the reactive state store (GameState), the tick scheduler
  (GameLoop), the batched render pipeline (DOMBatcher) and the lazy
  module loader (PhaseManager), shallowly embedded in Lean.

  Modelling conventions, used throughout:
  * JavaScript values are modelled by the inductive type `JSVal`.
    IEEE-754 numbers are modelled as exact fractions (`JNum`) plus an
    explicit `vNaN` value; JSON arrays are modelled as index-keyed objects
    (automatic `length` maintenance of JS arrays is not modelled; no
    claim below concerns writes into array elements).
  * JavaScript objects are modelled as insertion-ordered association
    lists, matching the enumeration order of string-keyed properties.
    Prototype-inherited members (object methods such as `toString`) are
    not modelled: `key in target` is modelled as an own-property test.
  * Strict equality `===` is modelled by `jsEq`; for primitive values it
    agrees with JavaScript (`NaN === NaN` is false).  For object values
    JavaScript compares references; the model compares structurally.
    The claims settled below only compare primitive leaf values.
  * Code that can throw is embedded in `Except Unit`; `.error ()` marks
    a thrown TypeError.  Caught exceptions are modelled at the catch
    site, exactly where the source catches them.
-/

namespace Paperclips

/-- Finite JS numbers, modelled as exact fractions (numerator over a
positive denominator; every constructor below and every arithmetic
operation preserves denominator positivity).  Fractions are kept
unnormalized; numeric equality (`===` on numbers) is cross-multiplied
equality. -/
structure JNum : Type where
  num : Int
  den : Nat
deriving DecidableEq, Inhabited

instance (n : Nat) : OfNat JNum n := ⟨⟨(n : Int), 1⟩⟩

namespace JNum

/-- Numeric equality of fractions (value of `a === b` on numbers). -/
def numEq (a b : JNum) : Bool := a.num * (b.den : Int) == b.num * (a.den : Int)

/-- Numeric comparison `a ≤ b` of fractions. -/
def numLe (a b : JNum) : Bool := a.num * (b.den : Int) ≤ b.num * (a.den : Int)

/-- Fraction addition. -/
def add (a b : JNum) : JNum := ⟨a.num * (b.den : Int) + b.num * (a.den : Int), a.den * b.den⟩

/-- Fraction subtraction. -/
def sub (a b : JNum) : JNum := ⟨a.num * (b.den : Int) - b.num * (a.den : Int), a.den * b.den⟩

end JNum

inductive JSVal : Type where
  | vUndef : JSVal
  | vNull : JSVal
  | vNaN : JSVal
  | vNum : JNum → JSVal
  | vBool : Bool → JSVal
  | vStr : String → JSVal
  | vObj : List (String × JSVal) → JSVal
deriving Inhabited

namespace JSVal

-- Model of strict equality `===` on the fragment used by the store:
-- NaN is not equal to itself; objects are compared structurally (see the
-- conventions note above).
mutual

def jsEq : JSVal → JSVal → Bool
  | .vUndef, .vUndef => true
  | .vNull, .vNull => true
  | .vNaN, _ => false
  | _, .vNaN => false
  | .vNum a, .vNum b => JNum.numEq a b
  | .vBool a, .vBool b => a == b
  | .vStr a, .vStr b => a == b
  | .vObj fs, .vObj gs => jsEqFields fs gs
  | _, _ => false

def jsEqFields : List (String × JSVal) → List (String × JSVal) → Bool
  | [], [] => true
  | (k, v) :: fs, (k2, v2) :: gs => k == k2 && jsEq v v2 && jsEqFields fs gs
  | _, _ => false

end

/-- JavaScript truthiness: `undefined`, `null`, `NaN`, `0`, `false` and
the empty string are falsy, everything else (including every object) is
truthy. -/
def truthy : JSVal → Bool
  | .vUndef => false
  | .vNull => false
  | .vNaN => false
  | .vNum q => q.num != 0
  | .vBool b => b
  | .vStr s => s != ""
  | .vObj _ => true

end JSVal

open JSVal

/-- Association lookup, modelling both JS object own-property lookup
and `Map.prototype.get`. -/
def assocGet {β : Type} (fs : List (String × β)) (k : String) : Option β :=
  match fs with
  | [] => none
  | (k2, v) :: rest => if k2 = k then some v else assocGet rest k

/-- Association write, modelling both JS object property assignment and
`Map.prototype.set`: updates in place when the key exists (keeping its
position, as JS insertion order does), appends otherwise. -/
def assocSet {β : Type} (fs : List (String × β)) (k : String) (v : β) :
    List (String × β) :=
  match fs with
  | [] => [(k, v)]
  | (k2, v2) :: rest =>
      if k2 = k then (k2, v) :: rest else (k2, v2) :: assocSet rest k v

/-- Key removal, modelling `Map.prototype.delete`. -/
def assocRemove {β : Type} (fs : List (String × β)) (k : String) :
    List (String × β) :=
  fs.filter (fun e => !(e.1 == k))

/-- Property read `fs[k]` on an object, defaulting to `undefined` when
the key is absent. -/
def objGetD (fs : List (String × JSVal)) (k : String) : JSVal :=
  ((assocGet fs k).getD .vUndef)

/-- Source-named alias for property assignment on an object. -/
def objSet (fs : List (String × JSVal)) (k : String) (v : JSVal) :
    List (String × JSVal) :=
  assocSet fs k v

/-!  Path addressing.  `GameState.get`/`set` split the path on `'.'` and
traverse the object tree segment by segment. -/

/-- Character-level worker for `splitPath`: splits on `'.'`,
accumulating the current segment in reverse. -/
def splitChars : List Char → List Char → List String
  | [], acc => [String.mk acc.reverse]
  | c :: cs, acc =>
      if c = '.' then String.mk acc.reverse :: splitChars cs []
      else splitChars cs (c :: acc)

/-- Model of `path.split('.')`: always returns at least one segment
(`"".split('.')` is `[""]`), and empty segments are kept
(`"a..b".split('.')` is `["a", "", "b"]`). -/
def splitPath (p : String) : List String := splitChars p.data []

/-- Model of `Array.prototype.join('.')`. -/
def joinDots : List String → String
  | [] => ""
  | [s] => s
  | s :: rest => s ++ "." ++ joinDots rest

/-- One step of `value = value[key]` in `GameState.get`: property access
on `null`/`undefined` throws a TypeError; unknown properties of other
primitives read as `undefined`. -/
def jsIndex : JSVal → String → Except Unit JSVal
  | .vObj fs, k => .ok (objGetD fs k)
  | .vNull, _ => .error ()
  | .vUndef, _ => .error ()
  | _, _ => .ok (.vUndef)

/-- The traversal loop of `GameState.get`: after each access, if the
value is `undefined` the loop returns `undefined` early. -/
def getE : JSVal → List String → Except Unit JSVal
  | v, [] => .ok v
  | v, k :: ks =>
      match jsIndex v k with
      | .error e => .error e
      | .ok .vUndef => .ok .vUndef
      | .ok v2 => getE v2 ks

/-- The traversal/creation loop of `GameState.set`, acting on the fields
of the current target object.  `ks` are the intermediate keys (the
source pops the last key first), `last` the popped final key.  Missing
intermediates are auto-created as `{}` (the source tests `key in
target`); descending into a stored non-object value throws (the `in`
operator, or the final strict-mode assignment, throws a TypeError on
primitives).  Returns the updated fields and the overwritten old leaf
value. -/
def childOf (fs : List (String × JSVal)) (k : String) : JSVal :=
  match assocGet fs k with
  | none => .vObj []
  | some c => c

def setRec : List (String × JSVal) → List String → String → JSVal →
    Except Unit (List (String × JSVal) × JSVal)
  | fs, [], last, v => .ok (objSet fs last v, objGetD fs last)
  | fs, k :: ks, last, v =>
      match childOf fs k with
      | .vObj cfs =>
          (match setRec cfs ks last v with
           | .error e => .error e
           | .ok r => .ok (objSet fs k (.vObj r.1), r.2))
      | _ => .error ()

/-!  The GameState store.  Observer callbacks are identified by natural
numbers (callback identity is what the source's `Set` and the claims
compare); the registry maps a path pattern to its callbacks in
registration order, mirroring a `Map` of `Set`s with insertion order.
The `tree` field holds the data properties of `this` (the eleven state
categories, plus any top-level keys later auto-created by `set`);
methods and the `observers` map itself are not addressable here (no
claim reads them through a path). -/

structure GameState where
  observers : List (String × List Nat)
  tree : List (String × JSVal)
deriving Inhabited

namespace GameState

/-- Default `resources` category from the constructor. -/
def defResources : List (String × JSVal) :=
  [("clips", .vNum 0), ("unusedClips", .vNum 0), ("unsoldClips", .vNum 0),
   ("clipsSold", .vNum 0), ("finalClips", .vNum 0), ("funds", .vNum 0),
   ("bankroll", .vNum 0), ("wire", .vNum 1000), ("wireSupply", .vNum 1000),
   ("nanoWire", .vNum 0), ("availableMatter", .vNum 0), ("acquiredMatter", .vNum 0),
   ("processedMatter", .vNum 0), ("totalMatter", .vNum 0), ("foundMatter", .vNum 0)]

/-- Default `production` category from the constructor. -/
def defProduction : List (String × JSVal) :=
  [("clipRate", .vNum 0), ("clipRateTemp", .vNum 0), ("clipRateTracker", .vNum 0),
   ("clipmakerRate", .vNum 0), ("clipmakerLevel", .vNum 0), ("clipmakerLevel2", .vNum 0),
   ("megaClipperLevel", .vNum 0), ("clipperBoost", .vNum 1), ("megaClipperBoost", .vNum 1),
   ("factoryBoost", .vNum 1), ("droneBoost", .vNum 1), ("factoryRate", .vNum 0),
   ("harvesterRate", .vNum 0), ("wireDroneRate", .vNum 0), ("farmRate", .vNum 0)]

/-- Default `market` category from the constructor. -/
def defMarket : List (String × JSVal) :=
  [("margin", .vNum ⟨1, 100⟩), ("demand", .vNum 10), ("demandBoost", .vNum 1),
   ("marketingLvl", .vNum 1), ("marketingEffectiveness", .vNum 1),
   ("wireCost", .vNum 20), ("wireBasePrice", .vNum 20), ("clipperCost", .vNum 5),
   ("megaClipperCost", .vNum 500), ("marketing", .vNum 1), ("adCost", .vNum 100),
   ("avgRev", .vNum 0), ("income", .vNum 0),
   ("incomeTracker", .vObj [("0", .vNum 0)])]

/-- Default `computing` category from the constructor. -/
def defComputing : List (String × JSVal) :=
  [("processors", .vNum 1), ("memory", .vNum 1), ("operations", .vNum 0),
   ("tempOps", .vNum 0), ("standardOps", .vNum 0), ("trust", .vNum 2),
   ("maxTrust", .vNum 2), ("nextTrust", .vNum 3000), ("maxTrustCost", .vNum 3000),
   ("creativity", .vNum 0), ("creativitySpeed", .vNum 0), ("creativityCounter", .vNum 0),
   ("qChipCost", .vNum 10000), ("nextQchip", .vNum 0), ("qClock", .vNum 0)]

/-- Default `infrastructure` category from the constructor. -/
def defInfrastructure : List (String × JSVal) :=
  [("factoryLevel", .vNum 0), ("factoryCost", .vNum 100000000), ("factoryBill", .vNum 0),
   ("harvesterLevel", .vNum 0), ("harvesterCost", .vNum 1000000), ("harvesterBill", .vNum 0),
   ("wireDroneLevel", .vNum 0), ("wireDroneCost", .vNum 1000000), ("wireDroneBill", .vNum 0),
   ("farmLevel", .vNum 0), ("farmCost", .vNum 10000000), ("batteryLevel", .vNum 0),
   ("batteryCost", .vNum 1000000000), ("storedPower", .vNum 0), ("batterySize", .vNum 0)]

/-- Default `combat` category from the constructor. -/
def defCombat : List (String × JSVal) :=
  [("probeCombat", .vNum 0), ("drifterCombat", .vNum 0), ("attackSpeed", .vNum ⟨1, 5⟩),
   ("battleSpeed", .vNum ⟨1, 5⟩), ("battles", .vObj []), ("battleID", .vNum 0),
   ("maxBattles", .vNum 1), ("battleClock", .vNum 0), ("driftersKilled", .vNum 0),
   ("honor", .vNum 0), ("honorCount", .vNum 0), ("bonusHonor", .vNum 0)]

/-- Default `flags` category from the constructor. -/
def defFlags : List (String × JSVal) :=
  [("human", .vBool true), ("trust", .vBool false), ("creation", .vBool false),
   ("space", .vBool false), ("endgame", .vBool false), ("factory", .vBool false),
   ("harvester", .vBool false), ("wireDrone", .vBool false), ("battle", .vBool false),
   ("swarm", .vBool false), ("milestone", .vBool false), ("projects", .vBool false),
   ("comp", .vBool false), ("revPerSec", .vBool false), ("autoClipper", .vBool false),
   ("megaClipper", .vBool false), ("wireBuyer", .vBool false),
   ("strategyEngine", .vBool false), ("investmentEngine", .vBool false),
   ("creativity", .vBool false), ("quantum", .vBool false)]

/-- Default `swarm` category from the constructor. -/
def defSwarm : List (String × JSVal) :=
  [("status", .vNum 0), ("gifts", .vNum 0), ("nextGift", .vNum 0),
   ("giftPeriod", .vNum 0), ("probeCount", .vNum 0), ("probesLaunched", .vNum 0),
   ("harvesterProbes", .vNum 0), ("wireProbes", .vNum 0), ("combatProbes", .vNum 0),
   ("harvesterRatio", .vNum ⟨1, 2⟩), ("wireRatio", .vNum ⟨3, 10⟩),
   ("combatRatio", .vNum ⟨1, 5⟩), ("giftCountdown", .vNum 0), ("disorgCounter", .vNum 0),
   ("disorgFlag", .vNum 0), ("boredomLevel", .vNum 0), ("boredomFlag", .vNum 0)]

/-- Default `exploration` category from the constructor. -/
def defExploration : List (String × JSVal) :=
  [("exploredSpace", .vNum 0), ("sectors", .vObj []), ("probeSpeed", .vNum 1),
   ("matterDensity", .vNum ⟨1, 10⟩)]

/-- Default `ui` category from the constructor. -/
def defUi : List (String × JSVal) :=
  [("ticks", .vNum 0), ("blinkCounter", .vNum 0), ("elapsedTime", .vNum 0),
   ("wirePriceTimer", .vNum 0), ("opFadeTimer", .vNum 0), ("endTimer1", .vNum 0),
   ("endTimer2", .vNum 0), ("endTimer3", .vNum 0), ("endTimer4", .vNum 0),
   ("endTimer5", .vNum 0), ("endTimer6", .vNum 0), ("battleEndTimer", .vNum 0),
   ("sliderPos", .vNum 50), ("qFade", .vNum 1), ("opFade", .vNum 1)]

/-- Default `meta` category from the constructor; note the `null`
default of `meta.transaction`. -/
def defMeta : List (String × JSVal) :=
  [("prestigeU", .vNum 0), ("prestigeS", .vNum 0), ("dismantle", .vNum 0),
   ("resetFlag", .vNum 0), ("transaction", .vNull)]

/-- The eleven top-level category names, in constructor (and `save`)
order. -/
def categoryNames : List String :=
  ["resources", "production", "market", "computing", "infrastructure",
   "combat", "flags", "swarm", "exploration", "ui", "meta"]

/-- The data properties of a freshly constructed `GameState`. -/
def defaultTree : List (String × JSVal) :=
  [("resources", .vObj defResources), ("production", .vObj defProduction),
   ("market", .vObj defMarket), ("computing", .vObj defComputing),
   ("infrastructure", .vObj defInfrastructure), ("combat", .vObj defCombat),
   ("flags", .vObj defFlags), ("swarm", .vObj defSwarm),
   ("exploration", .vObj defExploration), ("ui", .vObj defUi),
   ("meta", .vObj defMeta)]

/-- A freshly constructed `GameState`: empty observer registry, default
state tree (`new GameState()`). -/
def init : GameState := ⟨[], defaultTree⟩

/-- Model of `GameState.get(path)`. -/
def get (s : GameState) (path : String) : Except Unit JSVal :=
  getE (.vObj s.tree) (splitPath path)

/-- The wildcard patterns probed by `notifyObservers` for a written
path, in probe order: for `i` from `parts.length - 1` down to `1`, the
pattern `parts.slice(0, i).join('.') + '.*'`. -/
def wildcardPatterns (parts : List String) : List String :=
  (((List.range parts.length).filter (fun i => 0 < i)).reverse).map
    (fun i => joinDots (parts.take i) ++ ".*")

/-- All patterns notified for a written path, in notification order:
the exact path first, then the ancestor wildcard patterns. -/
def patternsOf (path : String) : List String :=
  path :: wildcardPatterns (splitPath path)

/-- Model of `notifyObservers(path, ...)` as an invocation trace: the
list of (pattern, callback) invocations, in the order the source
performs them (exact-path observers in registration order, then each
ancestor wildcard pattern's observers in registration order).  Each
callback invocation is individually wrapped in `try/catch` in the
source, so a throwing callback does not alter this trace. -/
def notifyList (obs : List (String × List Nat)) (path : String) :
    List (String × Nat) :=
  (patternsOf path).flatMap
    (fun pat => ((assocGet obs pat).getD []).map (fun cb => (pat, cb)))

/-- Model of `GameState.set(path, value)`.  Returns the updated store
and the observer-invocation trace fired synchronously before `set`
returns (empty when the old value is strictly equal to the new one). -/
def set (s : GameState) (path : String) (v : JSVal) :
    Except Unit (GameState × List (String × Nat)) :=
  match (splitPath path).reverse with
  | [] => .error ()
  | last :: revInit =>
      match setRec s.tree revInit.reverse last v with
      | .error e => .error e
      | .ok r =>
          .ok ({ s with tree := r.1 },
               if jsEq r.2 v then [] else notifyList s.observers path)

/-- Model of `addObserver(path, callback)` (the registration part; the
returned disposer is modelled by `dispose` below). -/
def addObserver (s : GameState) (path : String) (cb : Nat) : GameState :=
  match assocGet s.observers path with
  | none => { s with observers := s.observers ++ [(path, [cb])] }
  | some cbs =>
      { s with observers :=
          assocSet s.observers path (if cb ∈ cbs then cbs else cbs ++ [cb]) }

/-- Model of the disposer closure returned by `addObserver`: looks the
pattern up in the *current* registry, deletes the callback, and deletes
the pattern entry when its set becomes empty. -/
def dispose (s : GameState) (path : String) (cb : Nat) : GameState :=
  match assocGet s.observers path with
  | none => s
  | some cbs =>
      let cbs2 := cbs.erase cb
      if cbs2 = [] then { s with observers := assocRemove s.observers path }
      else { s with observers := assocSet s.observers path cbs2 }

/-- Restriction of JS `ToNumber` used by `increment`/`decrement`
(`current - amount` coerces `current`): exact for numbers, booleans and
`null`; strings are handled for integer literals and approximated as
`NaN` otherwise (no claim below depends on string coercion — see the
non-negativity argument in the `decrement` theorems, which holds for
every coercion result); objects coerce through `ToPrimitive` to `NaN`
for the plain objects storable here. -/
def jsToNumber : JSVal → Option JNum
  | .vNum q => some q
  | .vBool b => some (if b then 1 else 0)
  | .vNull => some 0
  | .vStr s => s.toInt?.map (fun i => (⟨i, 1⟩ : JNum))
  | _ => none

/-- Model of `increment(path, amount)`: `this.get(path) || 0`, add,
write back through `set`. -/
def increment (s : GameState) (path : String) (amount : JNum) :
    Except Unit (GameState × List (String × Nat)) :=
  match s.get path with
  | .error e => .error e
  | .ok cur0 =>
      let cur := if truthy cur0 then cur0 else .vNum 0
      let newV := match jsToNumber cur with
        | some q => JSVal.vNum (q.add amount)
        | none => JSVal.vNaN
      s.set path newV

/-- Model of `Math.max(0, x)` on a non-NaN numeric argument. -/
def mathMax0 (x : JNum) : JNum := if JNum.numLe 0 x then x else 0

/-- Model of `decrement(path, amount)`: `this.get(path) || 0`, subtract
clamped by `Math.max(0, ...)` (which yields `NaN` on `NaN`), write back
through `set`. -/
def decrement (s : GameState) (path : String) (amount : JNum) :
    Except Unit (GameState × List (String × Nat)) :=
  match s.get path with
  | .error e => .error e
  | .ok cur0 =>
      let cur := if truthy cur0 then cur0 else .vNum 0
      let newV := match jsToNumber cur with
        | some q => JSVal.vNum (mathMax0 (q.sub amount))
        | none => JSVal.vNaN
      s.set path newV

end GameState

/-!  Persistence.  `localStorage` stores strings; `load` inspects a
stored string only through its `JSON.parse` outcome, so a stored string
is modelled by that outcome (`Raw`): either the parser rejects it, or
it parses to a value.  `exportSave`/`importSave` transport the raw
string through a reversible text encoding (`btoa`/`atob`); transporting
the string is modelled as transporting its `Raw` value. -/

inductive Raw : Type where
  | unparsable : Raw
  | parsed : JSVal → Raw
deriving Inhabited

/-- The mutable world visible to the persistence layer: the live store
and the `localStorage` entry under the save key. -/
structure World where
  gs : GameState
  storage : Option Raw
deriving Inhabited

namespace World

open GameState

/-- The save envelope written by `GameState.save()`: format version,
timestamp, and the eleven categories in constructor order.
`JSON.stringify` normalization (dropping `undefined`-valued keys,
serializing `NaN` as `null`) is not applied; no claim below reads the
saved image back structurally. -/
def saveEnvelope (t : List (String × JSVal)) (now : Int) : JSVal :=
  .vObj [("version", .vStr "2.0.0"), ("timestamp", .vNum ⟨now, 1⟩),
         ("state", .vObj (categoryNames.map (fun c => (c, objGetD t c))))]

/-- Model of `GameState.save()`: writes the envelope to storage and
returns `true`.  (A persistence-medium failure would be caught and
surfaced as `false`; the storage medium is modelled as always
accepting writes, which no claim below depends on.) -/
def save (w : World) (now : Int) : Bool × World :=
  (true, { w with storage := some (.parsed (saveEnvelope w.gs.tree now)) })

/-- Model of `Object.assign(target, src)` on the store's objects: copies
the own enumerable properties of `src` onto `target` in order.  Object
sources copy their fields; string sources copy their character index
properties; other primitives (including `null`/`undefined`, which
`Object.assign` skips) contribute nothing. -/
def objAssign (fs : List (String × JSVal)) (src : JSVal) :
    List (String × JSVal) :=
  match src with
  | .vObj gs => gs.foldl (fun acc kv => objSet acc kv.1 kv.2) fs
  | .vStr s =>
      (s.data.enum.map (fun ic => (toString ic.1, JSVal.vStr (String.mk [ic.2])))).foldl
        (fun acc kv => objSet acc kv.1 kv.2) fs
  | _ => fs

/-- The per-category source of the restore loop:
`parsed.state[c] || unit-object` (property access on a primitive
`state` reads `undefined`; `state` is known truthy here, so it is never
`null`/`undefined`). -/
def catSrc (st : JSVal) (c : String) : JSVal :=
  let srcRaw := match st with
    | .vObj sfs => objGetD sfs c
    | _ => JSVal.vUndef
  if truthy srcRaw then srcRaw else .vObj []

/-- The restore loop of `load`: for each category `c` in source order,
`Object.assign(this[c], parsed.state[c] || unit-object)`.  A `null` or
`undefined` live category makes `Object.assign` throw (caught by
`load`'s `try`, which then returns `false` with the earlier categories
already merged); a primitive live category directs the copies onto a
temporary wrapper object, leaving the live value unchanged. -/
def mergeCats : List String → List (String × JSVal) → JSVal →
    Bool × List (String × JSVal)
  | [], t, _ => (true, t)
  | c :: cs, t, st =>
      match objGetD t c with
      | .vObj fs => mergeCats cs (objSet t c (.vObj (objAssign fs (catSrc st c)))) st
      | .vNull => (false, t)
      | .vUndef => (false, t)
      | _ => mergeCats cs t st

/-- Model of `GameState.load()`: returns `false` when storage is empty,
the payload is unparsable, or `parsed.state`/`parsed.version` is falsy
(or the property access itself throws because the payload parsed to
`null`); otherwise shallow-merges each category and returns `true`. -/
def load (w : World) : Bool × GameState :=
  match w.storage with
  | none => (false, w.gs)
  | some .unparsable => (false, w.gs)
  | some (.parsed v) =>
      match jsIndex v "state", jsIndex v "version" with
      | .ok st, .ok ver =>
          if truthy st && truthy ver then
            let r := mergeCats categoryNames w.gs.tree st
            (r.1, { w.gs with tree := r.2 })
          else (false, w.gs)
      | _, _ => (false, w.gs)

/-- Model of `GameState.reset()`: `Object.assign(this, new GameState())`
replaces every own property — the eleven categories *and* the
`observers` map — with fresh defaults, then saves. -/
def reset (w : World) (now : Int) : World :=
  (save { w with gs := GameState.init } now).2

/-- Model of `GameState.exportSave()`: `btoa` of the raw stored string,
or `null` when storage is empty; the encoding is reversible, so the
transported value is the stored `Raw` itself. -/
def exportSave (w : World) : Option Raw := w.storage

/-- The argument given to `importSave`, classified by what `atob` does
with it: either decoding throws (invalid base64), or it yields a string
with parse outcome `r`. -/
inductive ImportArg : Type where
  | badEncoding : ImportArg
  | decoded : Raw → ImportArg

/-- Model of `GameState.importSave(encodedSave)`: decode; on decode
failure, catch and return `false`.  On decode success the decoded
string is written to storage *unconditionally* (`localStorage.setItem`)
and then an ordinary `load()` runs and supplies the return value. -/
def importSave (w : World) (arg : ImportArg) : Bool × World :=
  match arg with
  | .badEncoding => (false, w)
  | .decoded r =>
      let w2 := { w with storage := some r }
      let r2 := load w2
      (r2.1, { w2 with gs := r2.2 })

end World

/-!  The tick scheduler (`GameLoop`).  Wall-clock instants and the
interval constants are epoch milliseconds (`Int`).  A registered
handler is modelled by its effect on the store plus a flag saying
whether it throws after that effect (a handler that throws midway
leaves the mutations it made before throwing, which is exactly the
state the returned store reflects).  Each handler invocation is wrapped
in its own `try/catch` in the source, so the fold below continues past
a throwing handler either way; `errorHandler.handleError` logs and
never rethrows. -/

/-- Constant `DISPLAY_UPDATE_INTERVAL` from `constants.js` (about 60
frames per second). -/
def DISPLAY_UPDATE_INTERVAL : Int := 16

/-- Constant `AUTOSAVE_INTERVAL` from `constants.js` (30 seconds). -/
def AUTOSAVE_INTERVAL : Int := 30000

/-- An update handler: receives the delta and the store, returns the
mutated store and whether it threw. -/
def UpdHandler : Type := Int → GameState → GameState × Bool

/-- A render handler: receives the store, returns the (possibly
mutated) store and whether it threw. -/
def RndHandler : Type := GameState → GameState × Bool

structure GameLoop : Type where
  running : Bool
  lastUpdate : Int
  lastRender : Int
  lastAutosave : Int
  lastCleanup : Int
  updateHandlers : List UpdHandler
  renderHandlers : List RndHandler

namespace GameLoop

/-- The constructor's `cleanupInterval` (60 seconds). -/
def cleanupInterval : Int := 60000

/-- Model of `GameLoop.update(deltaTime)`: increments the tick counter,
then calls every registered update handler in registration order, each
inside its own `try/catch`.  Only the tick increment itself can throw
out of `update` (through `performanceMonitor.measure`, which rethrows);
a handler's exception is caught in the loop and the remaining handlers
still run.  The observer trace of the tick increment is produced by the
store model and not inspected here. -/
def runUpdateHandlers (deltaTime : Int) (hs : List UpdHandler)
    (gs : GameState) : GameState :=
  hs.foldl (fun g h => (h deltaTime g).1) gs

def update (deltaTime : Int) (hs : List UpdHandler) (gs : GameState) :
    Except Unit GameState :=
  match GameState.increment gs "ui.ticks" 1 with
  | .error e => .error e
  | .ok r => .ok (runUpdateHandlers deltaTime hs r.1)

/-- Model of `GameLoop.render()`: every render handler in registration
order, each inside its own `try/catch`. -/
def render (hs : List RndHandler) (gs : GameState) : GameState :=
  hs.foldl (fun g h => (h g).1) gs

/-- One iteration of `GameLoop.loop()` at wall-clock instant `now`.
Returns the new loop state, the new world, and whether the next frame
was re-armed (`requestAnimationFrame` reached).  The `Except` layer
carries the one uncaught path: a throw from the tick increment inside
`update` propagates and kills the iteration before re-arming.  The
`cleanup` activity trims caches and monitors only (its body is wrapped
in `try`), modelled as a no-op on the world. -/
def loop (L : GameLoop) (w : World) (now : Int) :
    Except Unit (GameLoop × World × Bool) :=
  if L.running = false then .ok (L, w, false)
  else
    let updateDelta := now - L.lastUpdate
    let renderDelta := now - L.lastRender
    let autosaveDelta := now - L.lastAutosave
    let cleanupDelta := now - L.lastCleanup
    match (if updateDelta > 0 then
             match update updateDelta L.updateHandlers w.gs with
             | .error e => .error e
             | .ok gs2 => .ok ({ L with lastUpdate := now }, { w with gs := gs2 })
           else .ok (L, w) : Except Unit (GameLoop × World)) with
    | .error e => .error e
    | .ok s1 =>
      let s2 :=
        if renderDelta ≥ DISPLAY_UPDATE_INTERVAL then
          ({ s1.1 with lastRender := now },
           { s1.2 with gs := render s1.1.renderHandlers s1.2.gs })
        else s1
      let s3 :=
        if autosaveDelta ≥ AUTOSAVE_INTERVAL then
          ({ s2.1 with lastAutosave := now }, (World.save s2.2 now).2)
        else s2
      let s4 :=
        if cleanupDelta ≥ cleanupInterval then
          ({ s3.1 with lastCleanup := now }, s3.2)
        else s3
      .ok (s4.1, s4.2, true)

end GameLoop

/-!  The batched render pipeline (`DOMBatcher`).  Queued mutations are
modelled by the payload each queued closure captures; applying a
mutation to the visual surface is modelled as emitting a `MutEvent`.
Whether a particular DOM operation throws (an invalid class name, a
detached handle, ...) is environment behaviour, passed in as an oracle
`throws : MutEvent → Bool`.  The element cache (`getElement`) is
resolution machinery of the surface and is not modelled; no claim below
depends on it. -/

/-- A queued `pendingUpdates` payload: `updateText` and `updateHTML`
share that map. -/
inductive ContentMut : Type where
  | text : String → ContentMut
  | html : String → ContentMut
deriving DecidableEq, Inhabited

/-- A mutation applied to the visual surface. -/
inductive MutEvent : Type where
  | vis : String → Bool → MutEvent
  | style : String → List (String × String) → MutEvent
  | cls : String → List String × List String → MutEvent
  | content : String → ContentMut → MutEvent
deriving DecidableEq

structure DOMBatcher : Type where
  pendingUpdates : List (String × ContentMut)
  pendingStyles : List (String × List (String × String))
  pendingClasses : List (String × (List String × List String))
  pendingVisibility : List (String × Bool)
  frameId : Bool
  enabled : Bool
deriving Inhabited

namespace DOMBatcher

/-- A batcher as freshly constructed: nothing pending, no frame
scheduled, batching enabled. -/
def mk0 : DOMBatcher := ⟨[], [], [], [], false, true⟩

/-- Model of `scheduleUpdate()`: arms a frame if none is armed. -/
def scheduleUpdate (b : DOMBatcher) : DOMBatcher :=
  if b.frameId then b else { b with frameId := true }

/-- Model of `updateText(elementId, text)`: disabled → immediate
application; enabled → overwrite the pending entry under `elementId`
in `pendingUpdates` and schedule a flush. -/
def updateText (b : DOMBatcher) (elementId text : String) :
    DOMBatcher × List MutEvent :=
  if b.enabled = false then (b, [.content elementId (.text text)])
  else
    (scheduleUpdate
      { b with pendingUpdates :=
          assocSet b.pendingUpdates elementId (.text text) }, [])

/-- Model of `updateHTML(elementId, html)`: shares `pendingUpdates`
with `updateText`. -/
def updateHTML (b : DOMBatcher) (elementId html : String) :
    DOMBatcher × List MutEvent :=
  if b.enabled = false then (b, [.content elementId (.html html)])
  else
    (scheduleUpdate
      { b with pendingUpdates :=
          assocSet b.pendingUpdates elementId (.html html) }, [])

/-- Model of `updateStyles(elementId, styles)`. -/
def updateStyles (b : DOMBatcher) (elementId : String)
    (styles : List (String × String)) : DOMBatcher × List MutEvent :=
  if b.enabled = false then (b, [.style elementId styles])
  else
    (scheduleUpdate
      { b with pendingStyles := assocSet b.pendingStyles elementId styles }, [])

/-- Model of `updateClasses(elementId, classes)`. -/
def updateClasses (b : DOMBatcher) (elementId : String)
    (classes : List String × List String) : DOMBatcher × List MutEvent :=
  if b.enabled = false then (b, [.cls elementId classes])
  else
    (scheduleUpdate
      { b with pendingClasses := assocSet b.pendingClasses elementId classes }, [])

/-- Model of `updateVisibility(elementId, visible)`: the enabled path
adds `JSON.stringify(record with elementId and visible)` to the `Set`
`pendingVisibility` — keyed by the *pair*, not by the element: a
duplicate pair is dropped, a different `visible` for the same element
is a new entry. -/
def updateVisibility (b : DOMBatcher) (elementId : String) (visible : Bool) :
    DOMBatcher × List MutEvent :=
  if b.enabled = false then (b, [.vis elementId visible])
  else
    let entry := (elementId, visible)
    let b2 :=
      if entry ∈ b.pendingVisibility then b
      else { b with pendingVisibility := b.pendingVisibility ++ [entry] }
    (scheduleUpdate b2, [])

/-- Applies a queue of mutations until one throws: returns the events
applied before the throw and whether the whole queue completed. -/
def applyList (throws : MutEvent → Bool) : List MutEvent → List MutEvent × Bool
  | [] => ([], true)
  | e :: es =>
      if throws e then ([], false)
      else
        let r := applyList throws es
        (e :: r.1, r.2)

/-- The pending visibility queue as surface mutations. -/
def visEvents (b : DOMBatcher) : List MutEvent :=
  b.pendingVisibility.map (fun e => MutEvent.vis e.1 e.2)

/-- The pending style queue as surface mutations. -/
def styleEvents (b : DOMBatcher) : List MutEvent :=
  b.pendingStyles.map (fun e => MutEvent.style e.1 e.2)

/-- The pending class queue as surface mutations. -/
def classEvents (b : DOMBatcher) : List MutEvent :=
  b.pendingClasses.map (fun e => MutEvent.cls e.1 e.2)

/-- The pending content queue as surface mutations. -/
def contentEvents (b : DOMBatcher) : List MutEvent :=
  b.pendingUpdates.map (fun e => MutEvent.content e.1 e.2)

/-- Model of `flush()`: clear the frame id, then apply and clear the
four queues in the fixed order visibility → styles → classes →
content.  The whole body sits inside a single `try/catch`
(`errorHandler.handleError` at the `flush` level), so the first
throwing mutation aborts everything after it — including the
not-yet-executed `clear()` calls of the remaining queues. -/
def flush (throws : MutEvent → Bool) (b : DOMBatcher) :
    DOMBatcher × List MutEvent :=
  let b0 := { b with frameId := false }
  let r1 := applyList throws (visEvents b0)
  if r1.2 = false then (b0, r1.1)
  else
    let b1 := { b0 with pendingVisibility := [] }
    let r2 := applyList throws (styleEvents b1)
    if r2.2 = false then (b1, r1.1 ++ r2.1)
    else
      let b2 := { b1 with pendingStyles := [] }
      let r3 := applyList throws (classEvents b2)
      if r3.2 = false then (b2, r1.1 ++ r2.1 ++ r3.1)
      else
        let b3 := { b2 with pendingClasses := [] }
        let r4 := applyList throws (contentEvents b3)
        if r4.2 = false then (b3, r1.1 ++ r2.1 ++ r3.1 ++ r4.1)
        else ({ b3 with pendingUpdates := [] }, r1.1 ++ r2.1 ++ r3.1 ++ r4.1)

end DOMBatcher

/-!  The lazy module loader (`PhaseManager.loadModule`).  A loadable
module is identified by the namespace object the dynamic import
returns, and whether that object exposes `default.init`.  The outcome
of `await import(...)` (and of the optional `init()` call) is
environment behaviour, passed in as `env`. -/

/-- A dynamically imported module namespace object. -/
structure Module : Type where
  id : Nat
  hasInit : Bool
deriving DecidableEq, Inhabited

/-- What the runtime does for `await import('../systems/<name>.js')`
followed by the optional `default.init()` call. -/
inductive ImportOutcome : Type where
  | importFails : ImportOutcome
  | ok : Module → Bool → ImportOutcome

/-- Acquisition steps observable across `loadModule` calls. -/
inductive AcqEvent : Type where
  | imported : String → AcqEvent
  | initialized : String → AcqEvent
deriving DecidableEq

structure PhaseManager : Type where
  loadedModules : List (String × Module)
  currentPhase : String
  lazyLoadingEnabled : Bool
deriving Inhabited

namespace PhaseManager

/-- The module names with a dynamic-import case in `loadModule`'s
switch; every other name falls to the default branch (compiled into
the main bundle) and returns `null` without caching. -/
def knownModuleNames : List String := ["combat", "swarm", "exploration"]

/-- Model of `loadModule(moduleName)`: cache hit returns the cached
namespace object; otherwise known names import (and run `default.init`
when present) inside `try/catch` — on failure `handleError` logs and
`null` is returned with nothing cached; on success the module is cached
and returned.  Unknown names return `null`.  Also returns the
acquisition events this call performed. -/
def loadModule (env : String → ImportOutcome) (pm : PhaseManager)
    (name : String) : PhaseManager × Option Module × List AcqEvent :=
  match assocGet pm.loadedModules name with
  | some m => (pm, some m, [])
  | none =>
      if name ∈ knownModuleNames then
        match env name with
        | .importFails => (pm, none, [])
        | .ok m initFails =>
            let evts := AcqEvent.imported name ::
              (if m.hasInit then [AcqEvent.initialized name] else [])
            if m.hasInit && initFails then (pm, none, evts)
            else
              ({ pm with loadedModules := assocSet pm.loadedModules name m },
               some m, evts)
      else (pm, none, [])

end PhaseManager

/-!  General lemmas about the store's traversals. -/

/-- Sign test used to state the decrement floor: only a finite number
with a negative numerator denotes a negative value (denominators are
positive by construction; `NaN` is not negative). -/
def isNegative : JSVal → Bool
  | .vNum q => decide (q.num < 0)
  | _ => false

/-- Is this value a (plain) object? -/
def isObjVal : JSVal → Bool
  | .vObj _ => true
  | _ => false

/-- Own-property test (`Object.prototype.hasOwnProperty`-style) used to
state which envelope fields a payload carries. -/
def hasOwn (v : JSVal) (k : String) : Bool :=
  match v with
  | .vObj fs => (assocGet fs k).isSome
  | _ => false

/-- Every category of the live tree is a plain object — the shape the
constructor establishes and every successful object write preserves;
`load`'s restore loop only behaves (and only can return `true`) under
this shape. -/
def catsAreObjects (t : List (String × JSVal)) : Bool :=
  GameState.categoryNames.all (fun c => isObjVal (objGetD t c))

/-- The own enumerable property keys `Object.assign` copies from a
source value (the saved data's keys). -/
def srcKeys : JSVal → List String
  | .vObj gs => gs.map Prod.fst
  | .vStr s => s.data.enum.map (fun ic => toString ic.1)
  | _ => []

/-- Reading leaf `k` of category `c` in a tree (absent when the
category is not an object or lacks the key). -/
def catLookup (t : List (String × JSVal)) (c k : String) : Option JSVal :=
  match objGetD t c with
  | .vObj fs => assocGet fs k
  | _ => none

/-- C4 counterexample payload: both envelope fields are *present*, but
`version` is the falsy number `0`. -/
def c4Payload : JSVal :=
  .vObj [("version", .vNum 0),
         ("state", .vObj [("resources", .vObj [("clips", .vNum 5)])])]

/-- C4 witness payload: truthy `version` and `state`, carrying one
resources key. -/
def c4GoodPayload : JSVal :=
  .vObj [("version", .vStr "2.0.0"),
         ("state", .vObj [("resources", .vObj [("clips", .vNum 5)])])]

/-- Two visibility mutations for the same target with different
payloads, queued with batching enabled (C6). -/
def c6Batcher : DOMBatcher :=
  ((DOMBatcher.mk0.updateVisibility "x" true).1.updateVisibility "x" false).1

/-- A surface on which every visibility mutation throws (e.g. a handle
whose style object is revoked) and everything else succeeds (C7). -/
def visThrows : MutEvent → Bool
  | .vis _ _ => true
  | _ => false

/-- One pending mutation in each of three categories, queued with
batching enabled (C7). -/
def c7Batcher : DOMBatcher :=
  (((DOMBatcher.mk0.updateVisibility "v" true).1.updateStyles
      "s" [("color", "red")]).1.updateText "t" "T").1

/-- Does this stored payload carry key `k` at its top level? -/
def rawHasOwn (o : Option Raw) (k : String) : Bool :=
  match o with
  | some (.parsed v) => hasOwn v k
  | _ => false

/-- C8 import argument: a valid encoding whose decoded string parses,
but to a payload `load` rejects (no `version`/`state`). -/
def c8Arg : World.ImportArg := .decoded (.parsed (.vObj [("garbage", .vNum 1)]))

/-- C8 starting world: fresh store with a previously saved envelope in
storage. -/
def c8World : World :=
  ⟨GameState.init, some (.parsed (World.saveEnvelope GameState.init.tree 0))⟩

/-- C9 environment: every import resolves to module `42` exposing an
initializer, and no initializer throws. -/
def c9Env : String → ImportOutcome := fun _ => .ok ⟨42, true⟩ false

/-- C9 starting manager: nothing loaded. -/
def c9PM : PhaseManager := ⟨[], "human", true⟩

/-- C1: an update handler that throws immediately (its effect on the
store before throwing is nothing). -/
def throwingHandler : UpdHandler := fun _ gs => (gs, true)

/-- C1: an update handler that increments a counter in the store. -/
def counterHandler : UpdHandler := fun _ gs =>
  match GameState.increment gs "resources.clips" 1 with
  | .ok r => (r.1, false)
  | .error _ => (gs, true)

/-- C1: a running loop whose update list is the throwing handler
followed by the counter handler; render/autosave/cleanup timestamps in
the future so only the update activity is due at instant `10`. -/
def c1Loop : GameLoop :=
  ⟨true, 0, 100, 100, 100, [throwingHandler, counterHandler], []⟩

/-- C1: the witness world — fresh store, empty storage. -/
def c1World : World := ⟨GameState.init, none⟩

/-- Concrete store for the C3 witness: callback `2` under the wildcard
`flags.*`, callback `1` under the exact path `flags.space`. -/
def c3State : GameState :=
  (GameState.init.addObserver "flags.*" 2).addObserver "flags.space" 1

/-- The event trace of the C3 witness write. -/
def c3Ev : List (String × Nat) :=
  ((c3State.set "flags.space" (.vBool true)).map Prod.snd).toOption.getD []

theorem assocGet_assocSet_self {β : Type} (fs : List (String × β)) (k : String)
    (v : β) : assocGet (assocSet fs k v) k = some v := by
  induction fs with
  | nil => simp [assocSet, assocGet]
  | cons hd tl ih =>
      obtain ⟨k2, v2⟩ := hd
      by_cases h : k2 = k <;> simp [assocSet, assocGet, h, ih]

theorem assocGet_assocSet_ne {β : Type} (fs : List (String × β)) (k k2 : String)
    (v : β) (h : k2 ≠ k) : assocGet (assocSet fs k v) k2 = assocGet fs k2 := by
  induction fs with
  | nil =>
      simp only [assocSet, assocGet]
      rw [if_neg (fun hh => h hh.symm)]
  | cons hd tl ih =>
      obtain ⟨k3, v3⟩ := hd
      by_cases h3 : k3 = k
      · subst h3
        have hne : ¬ k3 = k2 := fun hh => h hh.symm
        simp [assocSet, assocGet, hne]
      · by_cases h4 : k3 = k2
        · subst h4
          simp [assocSet, assocGet, h3]
        · simp [assocSet, assocGet, h3, h4, ih]

theorem mathMax0_nonneg (x : JNum) :
    isNegative (.vNum (GameState.mathMax0 x)) = false := by
  unfold GameState.mathMax0
  by_cases h : JNum.numLe 0 x = true
  · rw [if_pos h]
    simp only [JNum.numLe, decide_eq_true_eq] at h
    have h0 : ((0 : JNum)).num = 0 := rfl
    have h1 : (((0 : JNum)).den : Int) = 1 := rfl
    rw [h0, h1] at h
    simp only [isNegative, decide_eq_false_iff_not, not_lt]
    simpa using h
  · rw [if_neg h]
    rfl

/-!  Computation lemmas for the traversal functions. -/

theorem getE_cons_err (v : JSVal) (k : String) (ks : List String) (e : Unit)
    (hj : jsIndex v k = .error e) : getE v (k :: ks) = .error e := by
  simp only [getE, hj]

theorem getE_cons_undef (v : JSVal) (k : String) (ks : List String)
    (hj : jsIndex v k = .ok .vUndef) : getE v (k :: ks) = .ok .vUndef := by
  simp only [getE, hj]

theorem getE_cons_go (v v2 : JSVal) (k : String) (ks : List String)
    (hj : jsIndex v k = .ok v2) (hne : v2 ≠ .vUndef) :
    getE v (k :: ks) = getE v2 ks := by
  cases v2 with
  | vUndef => exact absurd rfl hne
  | vNull => simp only [getE, hj]
  | vNaN => simp only [getE, hj]
  | vNum q => simp only [getE, hj]
  | vBool b => simp only [getE, hj]
  | vStr s => simp only [getE, hj]
  | vObj fs => simp only [getE, hj]

theorem setRec_cons_obj (fs cfs : List (String × JSVal)) (k : String)
    (ks : List String) (last : String) (v : JSVal)
    (hc : childOf fs k = .vObj cfs) :
    setRec fs (k :: ks) last v =
      match setRec cfs ks last v with
      | .error e => .error e
      | .ok r => .ok (objSet fs k (.vObj r.1), r.2) := by
  cases hr : setRec cfs ks last v with
  | error e => simp only [setRec, hc, hr]
  | ok r => simp only [setRec, hc, hr]

theorem setRec_cons_prim (fs : List (String × JSVal)) (c0 : JSVal) (k : String)
    (ks : List String) (last : String) (v : JSVal)
    (hc : childOf fs k = c0)
    (hprim : (match c0 with | .vObj _ => false | _ => true) = true) :
    setRec fs (k :: ks) last v = .error () := by
  cases c0 with
  | vObj cfs => simp at hprim
  | vUndef => simp only [setRec, hc]
  | vNull => simp only [setRec, hc]
  | vNaN => simp only [setRec, hc]
  | vNum q => simp only [setRec, hc]
  | vBool b => simp only [setRec, hc]
  | vStr s => simp only [setRec, hc]

/-- After a successful `setRec`, re-traversing the same path reads back
the written value: the traversal only ever descends into objects that
`setRec` rebuilt. -/
theorem getE_after_setRec (ks : List String) (fs : List (String × JSVal))
    (last : String) (v : JSVal) (fs2 : List (String × JSVal)) (old : JSVal)
    (h : setRec fs ks last v = .ok (fs2, old)) :
    getE (.vObj fs2) (ks ++ [last]) = .ok v := by
  induction ks generalizing fs fs2 old with
  | nil =>
      have h1 : fs2 = objSet fs last v := by
        simp only [setRec, Except.ok.injEq, Prod.mk.injEq] at h
        exact h.1.symm
      subst h1
      rw [List.nil_append]
      have hj : jsIndex (.vObj (objSet fs last v)) last = .ok v := by
        simp [jsIndex, objGetD, objSet, assocGet_assocSet_self]
      by_cases hu : v = JSVal.vUndef
      · subst hu
        exact getE_cons_undef _ _ _ hj
      · rw [getE_cons_go _ v last [] hj hu]
        cases v <;> rfl
  | cons k ks ih =>
      cases hg : assocGet fs k with
      | none =>
          have hc : childOf fs k = .vObj [] := by simp [childOf, hg]
          rw [setRec_cons_obj fs [] k ks last v hc] at h
          cases hrec : setRec [] ks last v with
          | error e => rw [hrec] at h; exact absurd h (by simp)
          | ok p =>
              rw [hrec] at h
              simp only [Except.ok.injEq, Prod.mk.injEq] at h
              obtain ⟨h1, _⟩ := h
              subst h1
              rw [List.cons_append]
              rw [getE_cons_go _ (.vObj p.1) k (ks ++ [last])
                (by simp [jsIndex, objGetD, objSet, assocGet_assocSet_self])
                (by simp)]
              exact ih [] p.1 p.2 hrec
      | some c =>
          cases c with
          | vObj cfs =>
              have hc : childOf fs k = .vObj cfs := by simp [childOf, hg]
              rw [setRec_cons_obj fs cfs k ks last v hc] at h
              cases hrec : setRec cfs ks last v with
              | error e => rw [hrec] at h; exact absurd h (by simp)
              | ok p =>
                  rw [hrec] at h
                  simp only [Except.ok.injEq, Prod.mk.injEq] at h
                  obtain ⟨h1, _⟩ := h
                  subst h1
                  rw [List.cons_append]
                  rw [getE_cons_go _ (.vObj p.1) k (ks ++ [last])
                    (by simp [jsIndex, objGetD, objSet, assocGet_assocSet_self])
                    (by simp)]
                  exact ih cfs p.1 p.2 hrec
          | vUndef =>
              rw [setRec_cons_prim fs .vUndef k ks last v (by simp [childOf, hg]) rfl] at h
              exact absurd h (by simp)
          | vNull =>
              rw [setRec_cons_prim fs .vNull k ks last v (by simp [childOf, hg]) rfl] at h
              exact absurd h (by simp)
          | vNaN =>
              rw [setRec_cons_prim fs .vNaN k ks last v (by simp [childOf, hg]) rfl] at h
              exact absurd h (by simp)
          | vNum q =>
              rw [setRec_cons_prim fs (.vNum q) k ks last v (by simp [childOf, hg]) rfl] at h
              exact absurd h (by simp)
          | vBool bb =>
              rw [setRec_cons_prim fs (.vBool bb) k ks last v (by simp [childOf, hg]) rfl] at h
              exact absurd h (by simp)
          | vStr ss =>
              rw [setRec_cons_prim fs (.vStr ss) k ks last v (by simp [childOf, hg]) rfl] at h
              exact absurd h (by simp)

/-- The `get` traversal throws exactly when some strict prefix of the
path resolves to `null` (a `vUndef` intermediate is impossible: the
loop returns early on `undefined`). -/
theorem getE_error_charac (keys : List String) (v : JSVal)
    (hv : v ≠ .vUndef) :
    getE v keys = .error () ↔
      ∃ n, n < keys.length ∧ getE v (keys.take n) = .ok .vNull := by
  induction keys generalizing v with
  | nil =>
      constructor
      · intro h; exact absurd h (by simp [getE])
      · rintro ⟨n, hn, _⟩; exact absurd hn (by simp)
  | cons k ks ih =>
      cases v with
      | vUndef => exact absurd rfl hv
      | vNull =>
          refine iff_of_true (getE_cons_err .vNull k ks () rfl) ⟨0, by simp, by simp [getE]⟩
      | vNaN =>
          rw [getE_cons_undef .vNaN k ks rfl]
          constructor
          · intro h; exact absurd h (by simp)
          · rintro ⟨n, hn, hTake⟩
            cases n with
            | zero => simp [getE] at hTake
            | succ m =>
                rw [List.take_succ_cons, getE_cons_undef .vNaN k (ks.take m) rfl] at hTake
                simp at hTake
      | vNum q =>
          rw [getE_cons_undef (.vNum q) k ks rfl]
          constructor
          · intro h; exact absurd h (by simp)
          · rintro ⟨n, hn, hTake⟩
            cases n with
            | zero => simp [getE] at hTake
            | succ m =>
                rw [List.take_succ_cons, getE_cons_undef (.vNum q) k (ks.take m) rfl] at hTake
                simp at hTake
      | vBool b =>
          rw [getE_cons_undef (.vBool b) k ks rfl]
          constructor
          · intro h; exact absurd h (by simp)
          · rintro ⟨n, hn, hTake⟩
            cases n with
            | zero => simp [getE] at hTake
            | succ m =>
                rw [List.take_succ_cons, getE_cons_undef (.vBool b) k (ks.take m) rfl] at hTake
                simp at hTake
      | vStr str =>
          rw [getE_cons_undef (.vStr str) k ks rfl]
          constructor
          · intro h; exact absurd h (by simp)
          · rintro ⟨n, hn, hTake⟩
            cases n with
            | zero => simp [getE] at hTake
            | succ m =>
                rw [List.take_succ_cons, getE_cons_undef (.vStr str) k (ks.take m) rfl] at hTake
                simp at hTake
      | vObj fs =>
          have hj : jsIndex (.vObj fs) k = .ok (objGetD fs k) := rfl
          by_cases hu : objGetD fs k = .vUndef
          · rw [hu] at hj
            rw [getE_cons_undef _ _ _ hj]
            constructor
            · intro h; exact absurd h (by simp)
            · rintro ⟨n, hn, hTake⟩
              cases n with
              | zero => simp [getE] at hTake
              | succ m =>
                  rw [List.take_succ_cons, getE_cons_undef _ _ _ hj] at hTake
                  simp at hTake
          · rw [getE_cons_go _ _ k ks hj hu, ih (objGetD fs k) hu]
            constructor
            · rintro ⟨n, hn, hTake⟩
              refine ⟨n + 1, by simpa using Nat.succ_lt_succ hn, ?_⟩
              rw [List.take_succ_cons, getE_cons_go _ _ k _ hj hu]
              exact hTake
            · rintro ⟨n, hn, hTake⟩
              cases n with
              | zero => simp [getE] at hTake
              | succ m =>
                  rw [List.take_succ_cons, getE_cons_go _ _ k _ hj hu] at hTake
                  refine ⟨m, ?_, hTake⟩
                  simpa using Nat.lt_of_succ_lt_succ (by simpa using hn)

/-- Anatomy of a successful `set`: the popped last key, the
intermediate keys, the `setRec` result, and the fired events. -/
theorem set_ok_elim (s : GameState) (path : String) (v : JSVal)
    (s2 : GameState) (ev : List (String × Nat))
    (h : s.set path v = .ok (s2, ev)) :
    ∃ last revInit r, (splitPath path).reverse = last :: revInit ∧
      setRec s.tree revInit.reverse last v = .ok r ∧
      s2 = { s with tree := r.1 } ∧
      ev = (if jsEq r.2 v then [] else GameState.notifyList s.observers path) := by
  cases hrev : (splitPath path).reverse with
  | nil =>
      simp only [GameState.set, hrev] at h
      exact absurd h (by simp)
  | cons last revInit =>
      simp only [GameState.set, hrev] at h
      cases hsr : setRec s.tree revInit.reverse last v with
      | error e => rw [hsr] at h; exact absurd h (by simp)
      | ok r =>
          rw [hsr] at h
          simp only [Except.ok.injEq, Prod.mk.injEq] at h
          exact ⟨last, revInit, r, rfl, hsr, h.1.symm, h.2.symm⟩

/-- Path round trip: after a successful `set`, `get` on the same path
returns the written value. -/
theorem set_ok_get (s : GameState) (path : String) (v : JSVal)
    (s2 : GameState) (ev : List (String × Nat))
    (h : s.set path v = .ok (s2, ev)) : s2.get path = .ok v := by
  obtain ⟨last, revInit, r, hrev, hsr, hs2, _⟩ := set_ok_elim s path v s2 ev h
  subst hs2
  have hkeys : splitPath path = revInit.reverse ++ [last] := by
    have h2 := congrArg List.reverse hrev
    simpa using h2
  show getE (.vObj r.1) (splitPath path) = .ok v
  rw [hkeys]
  exact getE_after_setRec _ _ _ _ _ _ hsr

/-- C2 — counterexample.  The claim says `get` on a never-written path
never throws, *including* when an intermediate segment resolves to a
non-map leaf such as the default `null` of `meta.transaction`.  On a
fresh store, `get('meta.transaction.x')` reaches the `null` leaf and
the next access (`null['x']`) throws a TypeError: the model's traversal
returns the thrown-error outcome, refuting the claim at this input. -/
theorem C2_absent_path_counterexample :
    GameState.init.get "meta.transaction.x" = .error () := rfl

/-- C2 — amended.  `get` on any path of any store returns a value (and
on a never-written path that value is `undefined`) *unless* some strict
prefix of the path resolves to `null`, in which case `get` throws: the
traversal faults exactly on `null` intermediates (a `vUndef`
intermediate is impossible because the loop returns early on
`undefined`). -/
theorem C2_absent_path_amended (s : GameState) (path : String) :
    s.get path = .error () ↔
      ∃ n, n < (splitPath path).length ∧
        getE (.vObj s.tree) ((splitPath path).take n) = .ok .vNull :=
  getE_error_charac (splitPath path) (.vObj s.tree) (by simp)

/-- The value `decrement` writes back is never negative: either the
clamped subtraction (non-negative by `Math.max(0, ...)`) or `NaN`. -/
theorem decrement_writes (s : GameState) (path : String) (amount : JNum)
    (s2 : GameState) (ev : List (String × Nat))
    (h : GameState.decrement s path amount = .ok (s2, ev)) :
    ∃ w, s.set path w = .ok (s2, ev) ∧ isNegative w = false := by
  cases hcur : s.get path with
  | error e =>
      simp only [GameState.decrement, hcur] at h
      exact absurd h (by simp)
  | ok cur0 =>
      simp only [GameState.decrement, hcur] at h
      refine ⟨_, h, ?_⟩
      cases GameState.jsToNumber (if truthy cur0 then cur0 else .vNum 0) with
      | some q => exact mathMax0_nonneg (q.sub amount)
      | none => rfl

/-- C5: for every path, starting value and amount, a `decrement` that
completes leaves a non-negative value stored at the path (the write is
clamped by `Math.max(0, ...)`); concretely, on a fresh store where
`resources.wire` is `1000`, `decrement('resources.wire', 1500)` leaves
`resources.wire` equal to `0`, not `-500`. -/
theorem C5_decrement_floor :
    (∀ (s : GameState) (path : String) (amount : JNum) (s2 : GameState)
       (ev : List (String × Nat)),
       GameState.decrement s path amount = .ok (s2, ev) →
       ∀ v, s2.get path = .ok v → isNegative v = false) ∧
    GameState.init.get "resources.wire" = .ok (.vNum 1000) ∧
    (GameState.init.decrement "resources.wire" 1500).map
        (fun r => r.1.get "resources.wire") = .ok (.ok (.vNum ⟨0, 1⟩)) := by
  refine ⟨?_, rfl, rfl⟩
  intro s path amount s2 ev h v hget
  obtain ⟨w, hset, hwneg⟩ := decrement_writes s path amount s2 ev h
  have hg2 := set_ok_get s path w s2 ev hset
  rw [hget] at hg2
  cases hg2
  exact hwneg

/-- C5 — witness: the concrete scenario of the claim, discharged by the
theorem's universal part at `resources.wire`, starting value `1000`,
amount `1500`. -/
theorem C5_decrement_floor_witness : isNegative (.vNum ⟨0, 1⟩) = false :=
  C5_decrement_floor.1 GameState.init "resources.wire" 1500 _ _ rfl
    (.vNum ⟨0, 1⟩) rfl

/-- Firing nothing: the notification trace over an empty observer
registry is empty for every path. -/
theorem notifyList_empty (path : String) :
    GameState.notifyList ([] : List (String × List Nat)) path = [] := by
  unfold GameState.notifyList
  induction GameState.patternsOf path with
  | nil => rfl
  | cons q qs ih => simp [assocGet, ih]

/-- C10: `reset()` replaces the observer registry with a fresh empty
one: after a reset (from any prior world), the registry equals the
fresh-constructor registry (empty), any `set` — changing or not —
fires no callbacks, and a disposer captured before the reset removes
nothing from the post-reset registry. -/
theorem C10_reset_observers :
    (∀ (w : World) (now : Int),
       (World.reset w now).gs.observers = ([] : List (String × List Nat))) ∧
    (∀ (w : World) (now : Int) (path : String) (v : JSVal) (s2 : GameState)
       (ev : List (String × Nat)),
       (World.reset w now).gs.set path v = .ok (s2, ev) → ev = []) ∧
    (∀ (w : World) (now : Int) (path : String) (cb : Nat),
       GameState.dispose (World.reset w now).gs path cb
         = (World.reset w now).gs) := by
  refine ⟨fun w now => rfl, ?_, fun w now path cb => rfl⟩
  intro w now path v s2 ev h
  obtain ⟨last, revInit, r, hrev, hsr, hs2, hev⟩ :=
    set_ok_elim _ path v s2 ev h
  rw [hev]
  split
  · rfl
  · exact notifyList_empty path

/-- A `setRec` starting from an auto-created empty object always
reports `undefined` as the overwritten old value. -/
theorem setRec_nil_old (ks : List String) (last : String) (v : JSVal)
    (r : List (String × JSVal) × JSVal)
    (h : setRec [] ks last v = .ok r) : r.2 = .vUndef := by
  induction ks generalizing r with
  | nil =>
      simp only [setRec, Except.ok.injEq] at h
      rw [← h]
      rfl
  | cons k2 ks2 ih =>
      have hc : childOf ([] : List (String × JSVal)) k2 = .vObj [] := rfl
      rw [setRec_cons_obj [] [] k2 ks2 last v hc] at h
      cases hrec : setRec [] ks2 last v with
      | error e => rw [hrec] at h; exact absurd h (by simp)
      | ok r2 =>
          rw [hrec] at h
          simp only [Except.ok.injEq] at h
          rw [← h]
          exact ih r2 hrec

/-- Reading the path in the *original* tree yields exactly the old
value that a successful `setRec` reports. -/
theorem getE_before_setRec (ks : List String) (fs : List (String × JSVal))
    (last : String) (v : JSVal) (fs2 : List (String × JSVal)) (old : JSVal)
    (h : setRec fs ks last v = .ok (fs2, old)) :
    getE (.vObj fs) (ks ++ [last]) = .ok old := by
  induction ks generalizing fs fs2 old with
  | nil =>
      simp only [setRec, Except.ok.injEq, Prod.mk.injEq] at h
      obtain ⟨_, h2⟩ := h
      subst h2
      rw [List.nil_append]
      have hj : jsIndex (.vObj fs) last = .ok (objGetD fs last) := rfl
      by_cases hu : objGetD fs last = .vUndef
      · rw [hu] at hj
        rw [getE_cons_undef _ _ _ hj, hu]
      · rw [getE_cons_go _ _ last [] hj hu]
        cases hcase : objGetD fs last <;> rfl
  | cons k ks ih =>
      cases hg : assocGet fs k with
      | none =>
          have hc : childOf fs k = .vObj [] := by simp [childOf, hg]
          rw [setRec_cons_obj fs [] k ks last v hc] at h
          cases hrec : setRec [] ks last v with
          | error e => rw [hrec] at h; exact absurd h (by simp)
          | ok p =>
              rw [hrec] at h
              simp only [Except.ok.injEq, Prod.mk.injEq] at h
              obtain ⟨_, h2⟩ := h
              subst h2
              have hold : p.2 = .vUndef := setRec_nil_old ks last v p hrec
              rw [List.cons_append]
              have hj : jsIndex (.vObj fs) k = .ok .vUndef := by
                simp [jsIndex, objGetD, hg]
              rw [getE_cons_undef _ _ _ hj, hold]
      | some c =>
          cases c with
          | vObj cfs =>
              have hc : childOf fs k = .vObj cfs := by simp [childOf, hg]
              rw [setRec_cons_obj fs cfs k ks last v hc] at h
              cases hrec : setRec cfs ks last v with
              | error e => rw [hrec] at h; exact absurd h (by simp)
              | ok p =>
                  rw [hrec] at h
                  simp only [Except.ok.injEq, Prod.mk.injEq] at h
                  obtain ⟨_, h2⟩ := h
                  subst h2
                  rw [List.cons_append]
                  have hj : jsIndex (.vObj fs) k = .ok (.vObj cfs) := by
                    simp [jsIndex, objGetD, hg]
                  rw [getE_cons_go _ _ k _ hj (by simp)]
                  exact ih cfs p.1 p.2 hrec
          | vUndef =>
              rw [setRec_cons_prim fs .vUndef k ks last v (by simp [childOf, hg]) rfl] at h
              exact absurd h (by simp)
          | vNull =>
              rw [setRec_cons_prim fs .vNull k ks last v (by simp [childOf, hg]) rfl] at h
              exact absurd h (by simp)
          | vNaN =>
              rw [setRec_cons_prim fs .vNaN k ks last v (by simp [childOf, hg]) rfl] at h
              exact absurd h (by simp)
          | vNum q =>
              rw [setRec_cons_prim fs (.vNum q) k ks last v (by simp [childOf, hg]) rfl] at h
              exact absurd h (by simp)
          | vBool bb =>
              rw [setRec_cons_prim fs (.vBool bb) k ks last v (by simp [childOf, hg]) rfl] at h
              exact absurd h (by simp)
          | vStr ss =>
              rw [setRec_cons_prim fs (.vStr ss) k ks last v (by simp [childOf, hg]) rfl] at h
              exact absurd h (by simp)

/-- A successful `set` compared the new value against the old stored
value (readable by `get` beforehand), and fired `notifyList` exactly
when they differ. -/
theorem set_ok_old (s : GameState) (path : String) (v : JSVal)
    (s2 : GameState) (ev : List (String × Nat))
    (h : s.set path v = .ok (s2, ev)) :
    ∃ old, s.get path = .ok old ∧
      ev = (if jsEq old v then []
            else GameState.notifyList s.observers path) := by
  obtain ⟨last, revInit, r, hrev, hsr, hs2, hev⟩ := set_ok_elim s path v s2 ev h
  refine ⟨r.2, ?_, hev⟩
  have hkeys : splitPath path = revInit.reverse ++ [last] := by
    have h2 := congrArg List.reverse hrev
    simpa using h2
  show getE (.vObj s.tree) (splitPath path) = .ok r.2
  rw [hkeys]
  exact getE_before_setRec revInit.reverse s.tree last v r.1 r.2 hsr

/-- `join('.')` distributes over list append with a separating dot. -/
theorem joinDots_append (xs ys : List String) (hx : xs ≠ []) (hy : ys ≠ []) :
    joinDots (xs ++ ys) = joinDots xs ++ "." ++ joinDots ys := by
  induction xs with
  | nil => exact absurd rfl hx
  | cons x xs ih =>
      cases xs with
      | nil =>
          cases ys with
          | nil => exact absurd rfl hy
          | cons y ys2 =>
              show joinDots (x :: y :: ys2) = joinDots [x] ++ "." ++ joinDots (y :: ys2)
              rfl
      | cons x2 xs2 =>
          have ih2 := ih (by simp)
          show x ++ "." ++ joinDots ((x2 :: xs2) ++ ys)
              = (x ++ "." ++ joinDots (x2 :: xs2)) ++ "." ++ joinDots ys
          rw [ih2]
          simp [String.append_assoc]

/-- Appending further segments strictly lengthens the joined string. -/
theorem joinDots_length_lt (xs ys : List String) (hx : xs ≠ []) (hy : ys ≠ []) :
    (joinDots xs).length < (joinDots (xs ++ ys)).length := by
  rw [joinDots_append xs ys hx hy]
  simp only [String.length_append]
  have hdot : (".").length = 1 := rfl
  omega

/-- Strictly longer dotted prefixes of a path join to strictly longer
strings. -/
theorem joinDots_take_length_lt (parts : List String) (i j : Nat)
    (hi : 0 < i) (hij : i < j) (hj : j ≤ parts.length) :
    (joinDots (parts.take i)).length < (joinDots (parts.take j)).length := by
  have htake : parts.take j = parts.take i ++ (parts.take j).drop i := by
    calc parts.take j
        = (parts.take j).take i ++ (parts.take j).drop i :=
          (List.take_append_drop _ _).symm
      _ = parts.take i ++ (parts.take j).drop i := by
          rw [List.take_take, min_eq_left (le_of_lt hij)]
  rw [htake]
  apply joinDots_length_lt
  · intro hnil
    have hlen := congrArg List.length hnil
    rw [List.length_take] at hlen
    simp only [List.length_nil] at hlen
    omega
  · intro hnil
    have hlen := congrArg List.length hnil
    rw [List.length_drop, List.length_take] at hlen
    simp only [List.length_nil] at hlen
    omega

/-- The ancestor wildcard patterns of a path are pairwise distinct. -/
theorem wildcardPatterns_nodup (parts : List String) :
    (GameState.wildcardPatterns parts).Nodup := by
  unfold GameState.wildcardPatterns
  apply List.Nodup.map_on
  · intro i hi j hj hfe
    simp only [List.mem_reverse, List.mem_filter, List.mem_range,
      decide_eq_true_eq] at hi hj
    have hlen := congrArg String.length hfe
    simp only [String.length_append] at hlen
    by_contra hne
    rcases Nat.lt_or_ge i j with hlt | hge
    · have := joinDots_take_length_lt parts i j hi.2 hlt (le_of_lt hj.1)
      omega
    · have hgt : j < i := lt_of_le_of_ne hge (fun hh => hne hh.symm)
      have := joinDots_take_length_lt parts j i hj.2 hgt (le_of_lt hi.1)
      omega
  · exact List.nodup_reverse.mpr ((List.nodup_range _).filter _)

theorem filter_fst_map_self (q : String) (cbs : List Nat) :
    (cbs.map (fun cb => (q, cb))).filter (fun e => e.1 == q)
      = cbs.map (fun cb => (q, cb)) := by
  induction cbs <;> simp_all

theorem filter_fst_map_ne (q pat : String) (h : ¬ q = pat) (cbs : List Nat) :
    (cbs.map (fun cb => (q, cb))).filter (fun e => e.1 == pat) = [] := by
  induction cbs <;> simp_all [h]

/-- Filtering the notification trace down to one pattern recovers that
pattern's registration list (in order) when the pattern is among the
probed patterns, and nothing otherwise — provided the probed patterns
are pairwise distinct. -/
theorem notify_filter (obs : List (String × List Nat)) (pats : List String)
    (hnd : pats.Nodup) (pat : String) :
    (pats.flatMap (fun q =>
        ((assocGet obs q).getD []).map (fun cb => (q, cb)))).filter
        (fun e => e.1 == pat)
      = if pat ∈ pats
        then ((assocGet obs pat).getD []).map (fun cb => (pat, cb))
        else [] := by
  induction pats with
  | nil => simp
  | cons q qs ih =>
      have hq : q ∉ qs := (List.nodup_cons.mp hnd).1
      have ih2 := ih (List.nodup_cons.mp hnd).2
      rw [List.flatMap_cons, List.filter_append, ih2]
      by_cases he : q = pat
      · subst he
        rw [filter_fst_map_self q _]
        rw [if_pos (List.mem_cons_self _ _)]
        rw [if_neg hq]
        simp
      · rw [filter_fst_map_ne q pat he, List.nil_append]
        by_cases hm : pat ∈ qs
        · rw [if_pos hm, if_pos (List.mem_cons_of_mem _ hm)]
        · rw [if_neg hm, if_neg ?_]
          intro hmem
          rcases List.mem_cons.mp hmem with h1 | h2
          · exact he h1.symm
          · exact hm h2

/-- C3 — counterexample.  The claim promises every callback is invoked
exactly once per registration.  But when the written path itself ends
in `.*`, the exact-path pass and the `i = parts.length - 1` wildcard
pass probe the *same* registry key: a single registration under
`flags.*` is invoked twice by one value-changing `set('flags.*', ...)`.
The trace below shows callback `7`, registered once, invoked twice. -/
theorem C3_observer_firing_counterexample :
    ((GameState.init.addObserver "flags.*" 7).set "flags.*"
        (.vBool true)).map Prod.snd
      = .ok [("flags.*", 7), ("flags.*", 7)] := rfl

/-- C3 — amended.  For a successful value write whose path is not
itself one of its own ancestor wildcard patterns (i.e. the path does
not end in `.*`): if the old and new values are strictly equal, no
callback is invoked; if they differ, then for every pattern, the
sub-trace of invocations under that pattern equals the pattern's
registration list in registration order — so every callback registered
on exactly the path or on an ancestor wildcard fires exactly once per
registration, and nothing else fires.  Invocations are synchronous:
they are part of `set`'s own return value. -/
theorem C3_observer_firing_amended (s : GameState) (path : String)
    (v : JSVal) (s2 : GameState) (ev : List (String × Nat)) (old : JSVal)
    (hset : s.set path v = .ok (s2, ev))
    (hold : s.get path = .ok old)
    (hself : path ∉ GameState.wildcardPatterns (splitPath path)) :
    (jsEq old v = true → ev = []) ∧
    (jsEq old v = false →
      ∀ pat, ev.filter (fun e => e.1 == pat)
        = if pat ∈ GameState.patternsOf path
          then ((assocGet s.observers pat).getD []).map (fun cb => (pat, cb))
          else []) := by
  obtain ⟨old2, hold2, hev⟩ := set_ok_old s path v s2 ev hset
  rw [hold] at hold2
  have holdeq : old2 = old := by
    cases hold2
    rfl
  subst holdeq
  constructor
  · intro h1
    rw [hev, if_pos h1]
  · intro h1 pat
    rw [hev, if_neg (by simp [h1])]
    have hnd : (GameState.patternsOf path).Nodup :=
      List.nodup_cons.mpr ⟨hself, wildcardPatterns_nodup _⟩
    exact notify_filter s.observers (GameState.patternsOf path) hnd pat

/-- C3 — witness: writing `true` to `flags.space` (old value `false`)
on `c3State`, the sub-trace under the exact pattern `flags.space` is
exactly its single registration. -/
theorem C3_observer_firing_amended_witness :
    c3Ev.filter (fun e => e.1 == "flags.space")
      = if "flags.space" ∈ GameState.patternsOf "flags.space"
        then ((assocGet c3State.observers "flags.space").getD []).map
          (fun cb => ("flags.space", cb))
        else [] :=
  (C3_observer_firing_amended c3State "flags.space" (.vBool true) _ _ _
    rfl rfl (by decide)).2 rfl "flags.space"

theorem objGetD_objSet_self (fs : List (String × JSVal)) (k : String)
    (v : JSVal) : objGetD (objSet fs k v) k = v := by
  simp [objGetD, objSet, assocGet_assocSet_self]

theorem objGetD_objSet_ne (fs : List (String × JSVal)) (k k2 : String)
    (v : JSVal) (h : k2 ≠ k) : objGetD (objSet fs k v) k2 = objGetD fs k2 := by
  simp [objGetD, objSet, assocGet_assocSet_ne fs k k2 v h]

/-- Copying a batch of properties leaves every other key unchanged. -/
theorem assocGet_foldl_objSet_ne (kvs : List (String × JSVal))
    (fs : List (String × JSVal)) (k : String)
    (h : k ∉ kvs.map Prod.fst) :
    assocGet (kvs.foldl (fun acc kv => objSet acc kv.1 kv.2) fs) k
      = assocGet fs k := by
  induction kvs generalizing fs with
  | nil => rfl
  | cons kv kvs ih =>
      simp only [List.map_cons, List.mem_cons] at h
      push_neg at h
      rw [List.foldl_cons, ih _ h.2]
      exact assocGet_assocSet_ne fs kv.1 k kv.2 h.1

/-- Copying a batch of properties with pairwise-distinct keys writes
each carried key's value. -/
theorem assocGet_foldl_objSet_mem (kvs : List (String × JSVal))
    (fs : List (String × JSVal)) (k : String) (vk : JSVal)
    (hnd : (kvs.map Prod.fst).Nodup) (hk : assocGet kvs k = some vk) :
    assocGet (kvs.foldl (fun acc kv => objSet acc kv.1 kv.2) fs) k
      = some vk := by
  induction kvs generalizing fs with
  | nil => exact absurd hk (by simp [assocGet])
  | cons kv kvs ih =>
      obtain ⟨k1, v1⟩ := kv
      simp only [List.map_cons, List.nodup_cons] at hnd
      rw [List.foldl_cons]
      by_cases he : k1 = k
      · subst he
        have hvk : vk = v1 := by
          simp [assocGet] at hk
          exact hk.symm
        subst hvk
        rw [assocGet_foldl_objSet_ne kvs _ k1 hnd.1]
        exact assocGet_assocSet_self fs k1 vk
      · have hk2 : assocGet kvs k = some vk := by
          simpa [assocGet, he] using hk
        exact ih _ hnd.2 hk2

/-- `Object.assign` leaves keys absent from the source unchanged. -/
theorem objAssign_ne (fs : List (String × JSVal)) (src : JSVal) (k : String)
    (h : k ∉ srcKeys src) :
    assocGet (World.objAssign fs src) k = assocGet fs k := by
  cases src with
  | vObj gs => exact assocGet_foldl_objSet_ne gs fs k h
  | vStr s =>
      apply assocGet_foldl_objSet_ne
      intro hmem
      apply h
      simp only [srcKeys]
      simp only [List.map_map] at hmem
      exact hmem
  | vUndef => rfl
  | vNull => rfl
  | vNaN => rfl
  | vNum q => rfl
  | vBool b => rfl

/-- `Object.assign` from an object source with pairwise-distinct keys
writes each source key's value. -/
theorem objAssign_mem (fs gs : List (String × JSVal)) (k : String)
    (vk : JSVal) (hnd : (gs.map Prod.fst).Nodup)
    (hk : assocGet gs k = some vk) :
    assocGet (World.objAssign fs (.vObj gs)) k = some vk :=
  assocGet_foldl_objSet_mem gs fs k vk hnd hk

/-- Behaviour of the restore loop under the object-categories shape:
it completes (`true`), source-absent keys of every processed category
keep their live value, source-present keys (for an object source with
distinct keys) receive the saved value, and unprocessed top-level keys
are untouched. -/
theorem mergeCats_spec (cs : List String) (t : List (String × JSVal))
    (st : JSVal)
    (hobj : cs.all (fun c => isObjVal (objGetD t c)) = true)
    (hnd : cs.Nodup) :
    (World.mergeCats cs t st).1 = true ∧
    (∀ c k, c ∈ cs → k ∉ srcKeys (World.catSrc st c) →
       catLookup (World.mergeCats cs t st).2 c k = catLookup t c k) ∧
    (∀ c gs k vk, c ∈ cs → World.catSrc st c = .vObj gs →
       (gs.map Prod.fst).Nodup → assocGet gs k = some vk →
       catLookup (World.mergeCats cs t st).2 c k = some vk) ∧
    (∀ c, c ∉ cs →
       objGetD (World.mergeCats cs t st).2 c = objGetD t c) := by
  induction cs generalizing t with
  | nil =>
      refine ⟨rfl, ?_, ?_, fun c hc => rfl⟩
      · intro c k hc
        exact absurd hc (by simp)
      · intro c gs k vk hc
        exact absurd hc (by simp)
  | cons c cs ih =>
      simp only [List.all_cons, Bool.and_eq_true] at hobj
      obtain ⟨hc1, hcs⟩ := hobj
      have hnd2 := List.nodup_cons.mp hnd
      cases hfs : objGetD t c with
      | vObj fs =>
          have hstep : World.mergeCats (c :: cs) t st
              = World.mergeCats cs
                  (objSet t c (.vObj (World.objAssign fs (World.catSrc st c)))) st := by
            simp only [World.mergeCats, hfs]
          set t2 := objSet t c (.vObj (World.objAssign fs (World.catSrc st c))) with ht2
          have hobj2 : cs.all (fun c2 => isObjVal (objGetD t2 c2)) = true := by
            rw [List.all_eq_true] at hcs ⊢
            intro c2 hc2
            by_cases he : c2 = c
            · subst he
              rw [ht2, objGetD_objSet_self]
              rfl
            · rw [ht2, objGetD_objSet_ne t c c2 _ he]
              exact hcs c2 hc2
          obtain ⟨ih1, ih2, ih3, ih4⟩ := ih t2 hobj2 hnd2.2
          rw [hstep]
          refine ⟨ih1, ?_, ?_, ?_⟩
          · intro c2 k hc2 hk
            rcases List.mem_cons.mp hc2 with he | hmem
            · subst he
              simp only [catLookup]
              rw [ih4 c2 hnd2.1, ht2, objGetD_objSet_self, hfs]
              exact objAssign_ne fs (World.catSrc st c2) k hk
            · rw [ih2 c2 k hmem hk]
              have hne : c2 ≠ c := fun he2 => hnd2.1 (he2 ▸ hmem)
              simp only [catLookup]
              rw [ht2, objGetD_objSet_ne t c c2 _ hne]
          · intro c2 gs k vk hc2 hsrc hgnd hgk
            rcases List.mem_cons.mp hc2 with he | hmem
            · subst he
              simp only [catLookup]
              rw [ih4 c2 hnd2.1, ht2, objGetD_objSet_self, hsrc]
              exact objAssign_mem fs gs k vk hgnd hgk
            · exact ih3 c2 gs k vk hmem hsrc hgnd hgk
          · intro c2 hc2
            have hne : c2 ≠ c := fun he2 => hc2 (he2 ▸ List.mem_cons_self _ _)
            have hnmem : c2 ∉ cs := fun hmem => hc2 (List.mem_cons_of_mem _ hmem)
            rw [ih4 c2 hnmem, ht2, objGetD_objSet_ne t c c2 _ hne]
      | vUndef => exact absurd hc1 (by rw [hfs]; simp [isObjVal])
      | vNull => exact absurd hc1 (by rw [hfs]; simp [isObjVal])
      | vNaN => exact absurd hc1 (by rw [hfs]; simp [isObjVal])
      | vNum q => exact absurd hc1 (by rw [hfs]; simp [isObjVal])
      | vBool b => exact absurd hc1 (by rw [hfs]; simp [isObjVal])
      | vStr ss => exact absurd hc1 (by rw [hfs]; simp [isObjVal])

/-- Rejecting branch of `load` for a parsed payload whose `state` or
`version` is falsy. -/
theorem load_parsed_reject (w : World) (v st ver : JSVal)
    (hst : jsIndex v "state" = .ok st) (hver : jsIndex v "version" = .ok ver)
    (hfalse : (truthy st && truthy ver) = false) :
    World.load { w with storage := some (.parsed v) } = (false, w.gs) := by
  simp only [World.load, hst, hver, hfalse]
  rfl

/-- Rejecting branch of `load` when reading `parsed.state` throws
(payload parsed to `null` or `undefined`). -/
theorem load_parsed_throw (w : World) (v : JSVal)
    (hst : jsIndex v "state" = .error ()) :
    World.load { w with storage := some (.parsed v) } = (false, w.gs) := by
  cases hver : jsIndex v "version" with
  | error e => simp only [World.load, hst, hver]
  | ok ver => simp only [World.load, hst, hver]

/-- Accepting branch of `load`: truthy `state` and `version` run the
restore loop and report its outcome. -/
theorem load_parsed_accept (w : World) (v st ver : JSVal)
    (hst : jsIndex v "state" = .ok st) (hver : jsIndex v "version" = .ok ver)
    (h1 : truthy st = true) (h2 : truthy ver = true) :
    World.load { w with storage := some (.parsed v) }
      = ((World.mergeCats GameState.categoryNames w.gs.tree st).1,
         { w.gs with tree :=
            (World.mergeCats GameState.categoryNames w.gs.tree st).2 }) := by
  simp only [World.load, hst, hver, h1, h2, Bool.and_self, if_true]

/-- C4 — counterexample.  The claim says `load` returns `false` only
when the payload is absent, unparsable, or *lacks* the `version` or
`state` field, and returns `true` otherwise.  This payload is parsed
and carries both fields, yet `load` returns `false`, because the code
tests truthiness (`!parsed.version`), not presence, and here `version`
is the falsy number `0`. -/
theorem C4_load_counterexample :
    hasOwn c4Payload "version" = true ∧ hasOwn c4Payload "state" = true ∧
    World.load ⟨GameState.init, some (.parsed c4Payload)⟩
      = (false, GameState.init) :=
  ⟨rfl, rfl, rfl⟩

/-- C4 — amended.  `load()` returns `false` and leaves the live state
unchanged whenever the payload is absent, is not parseable, parses to a
non-object (so the field access throws), or carries a *falsy* `state`
or `version` field (absence being one falsy case); otherwise — truthy
`state` and `version`, with the live categories being objects as the
constructor made them — it returns `true` and shallow-merges each
category present in the payload into the corresponding live category:
keys absent from the saved data keep their live value, keys present
receive the saved value. -/
theorem C4_load_amended (w : World)
    (hcat : catsAreObjects w.gs.tree = true) :
    World.load { w with storage := none } = (false, w.gs) ∧
    World.load { w with storage := some .unparsable } = (false, w.gs) ∧
    (∀ v, jsIndex v "state" = .error () →
       World.load { w with storage := some (.parsed v) } = (false, w.gs)) ∧
    (∀ v st ver, jsIndex v "state" = .ok st →
       jsIndex v "version" = .ok ver →
       (truthy st && truthy ver) = false →
       World.load { w with storage := some (.parsed v) } = (false, w.gs)) ∧
    (∀ v st ver, jsIndex v "state" = .ok st →
       jsIndex v "version" = .ok ver →
       truthy st = true → truthy ver = true →
       (World.load { w with storage := some (.parsed v) }).1 = true ∧
       (∀ c k, c ∈ GameState.categoryNames →
          k ∉ srcKeys (World.catSrc st c) →
          catLookup (World.load { w with storage := some (.parsed v) }).2.tree
              c k
            = catLookup w.gs.tree c k) ∧
       (∀ c gs k vk, c ∈ GameState.categoryNames →
          World.catSrc st c = .vObj gs → (gs.map Prod.fst).Nodup →
          assocGet gs k = some vk →
          catLookup (World.load { w with storage := some (.parsed v) }).2.tree
              c k
            = some vk)) := by
  have hobj : GameState.categoryNames.all
      (fun c => isObjVal (objGetD w.gs.tree c)) = true := hcat
  have hnd : GameState.categoryNames.Nodup := by decide
  refine ⟨rfl, rfl, fun v hst => load_parsed_throw w v hst,
    fun v st ver hst hver hf => load_parsed_reject w v st ver hst hver hf,
    ?_⟩
  intro v st ver hst hver h1 h2
  rw [load_parsed_accept w v st ver hst hver h1 h2]
  exact ⟨mergeCats_spec GameState.categoryNames w.gs.tree st hobj hnd |>.1,
    fun c k hc hk =>
      (mergeCats_spec GameState.categoryNames w.gs.tree st hobj hnd).2.1 c k hc hk,
    fun c gs k vk hc hsrc hgnd hgk =>
      (mergeCats_spec GameState.categoryNames w.gs.tree st hobj hnd).2.2.1
        c gs k vk hc hsrc hgnd hgk⟩

/-- C4 — witness: a parsed payload with truthy `version`/`state` and
`state.resources.clips = 5` loads successfully on a fresh store; the
saved key `clips` takes the saved value and the absent key `wire`
keeps its live value `1000`. -/
theorem C4_load_amended_witness :
    (World.load ⟨GameState.init, some (.parsed c4GoodPayload)⟩).1 = true ∧
    catLookup (World.load ⟨GameState.init, some (.parsed c4GoodPayload)⟩).2.tree
        "resources" "wire" = some (.vNum 1000) ∧
    catLookup (World.load ⟨GameState.init, some (.parsed c4GoodPayload)⟩).2.tree
        "resources" "clips" = some (.vNum 5) := by
  obtain ⟨-, -, -, -, h5⟩ :=
    C4_load_amended ⟨GameState.init, some (.parsed c4GoodPayload)⟩ rfl
  obtain ⟨ha, hb, hc⟩ := h5 c4GoodPayload _ _ rfl rfl rfl rfl
  refine ⟨ha, ?_, ?_⟩
  · exact (hb "resources" "wire" (by decide) (by decide)).trans rfl
  · exact hc "resources" [("clips", .vNum 5)] "clips" (.vNum 5)
      (by decide) rfl (by decide) rfl

/-- C10 — witness: on the freshly reset world, a value-changing `set`
of `flags.space` fires no observer events. -/
theorem C10_reset_observers_witness :
    ((World.reset ⟨GameState.init, none⟩ 0).gs.set "flags.space"
        (.vBool true)).map Prod.snd = .ok ([] : List (String × Nat)) := by
  have h := C10_reset_observers.2.1 ⟨GameState.init, none⟩ 0 "flags.space"
    (.vBool true) _ _ rfl
  rw [← h]
  rfl

/-- `scheduleUpdate` touches only `frameId`. -/
theorem scheduleUpdate_fields (b : DOMBatcher) :
    (DOMBatcher.scheduleUpdate b).pendingUpdates = b.pendingUpdates ∧
    (DOMBatcher.scheduleUpdate b).pendingStyles = b.pendingStyles ∧
    (DOMBatcher.scheduleUpdate b).pendingClasses = b.pendingClasses ∧
    (DOMBatcher.scheduleUpdate b).pendingVisibility = b.pendingVisibility ∧
    (DOMBatcher.scheduleUpdate b).enabled = b.enabled := by
  unfold DOMBatcher.scheduleUpdate
  split <;> exact ⟨rfl, rfl, rfl, rfl, rfl⟩

theorem updateText_enabled_eq (b : DOMBatcher) (id t : String)
    (hen : b.enabled = true) :
    (DOMBatcher.updateText b id t).1
      = DOMBatcher.scheduleUpdate
          { b with pendingUpdates := assocSet b.pendingUpdates id (.text t) } := by
  simp [DOMBatcher.updateText, hen]

theorem updateStyles_enabled_eq (b : DOMBatcher) (id : String)
    (p : List (String × String)) (hen : b.enabled = true) :
    (DOMBatcher.updateStyles b id p).1
      = DOMBatcher.scheduleUpdate
          { b with pendingStyles := assocSet b.pendingStyles id p } := by
  simp [DOMBatcher.updateStyles, hen]

theorem updateClasses_enabled_eq (b : DOMBatcher) (id : String)
    (p : List String × List String) (hen : b.enabled = true) :
    (DOMBatcher.updateClasses b id p).1
      = DOMBatcher.scheduleUpdate
          { b with pendingClasses := assocSet b.pendingClasses id p } := by
  simp [DOMBatcher.updateClasses, hen]

theorem updateVisibility_enabled_eq (b : DOMBatcher) (id : String) (vis : Bool)
    (hen : b.enabled = true) :
    (DOMBatcher.updateVisibility b id vis).1
      = DOMBatcher.scheduleUpdate
          (if (id, vis) ∈ b.pendingVisibility then b
           else { b with pendingVisibility := b.pendingVisibility ++ [(id, vis)] }) := by
  simp [DOMBatcher.updateVisibility, hen]

/-- C6 — counterexample.  Two `updateVisibility` calls with different
values for the same target are *both* retained (the pending set is
keyed by the serialized pair, not by the target), and at flush both
payloads are applied, refuting the claim that only the most recent
mutation per (target, category) pair survives for all four
categories. -/
theorem C6_batch_coalescing_counterexample :
    c6Batcher.pendingVisibility = [("x", true), ("x", false)] ∧
    (DOMBatcher.flush (fun _ => false) c6Batcher).2
      = [.vis "x" true, .vis "x" false] :=
  ⟨rfl, rfl⟩

/-- C6 — amended.  With batching enabled, the text, style and class
categories coalesce per target: a second queued mutation for the same
(target, category) overwrites the first.  Visibility is keyed by the
(target, value) *pair*: re-queuing the same pair is dropped (the set
deduplicates), but a second call with a different value for the same
target is appended, so both are retained and applied in queue order —
the most recent call's effect lands last. -/
theorem C6_batch_coalescing_amended (b : DOMBatcher) (hen : b.enabled = true) :
    (∀ id t1 t2, assocGet
        (((b.updateText id t1).1.updateText id t2).1).pendingUpdates id
      = some (.text t2)) ∧
    (∀ id p1 p2, assocGet
        (((b.updateStyles id p1).1.updateStyles id p2).1).pendingStyles id
      = some p2) ∧
    (∀ id c1 c2, assocGet
        (((b.updateClasses id c1).1.updateClasses id c2).1).pendingClasses id
      = some c2) ∧
    (∀ id vis,
      ((b.updateVisibility id vis).1.updateVisibility id vis).1.pendingVisibility
        = (b.updateVisibility id vis).1.pendingVisibility) ∧
    (∀ id vis, (id, vis) ∉ b.pendingVisibility →
      (id, !vis) ∉ b.pendingVisibility →
      ((b.updateVisibility id vis).1.updateVisibility id (!vis)).1.pendingVisibility
        = b.pendingVisibility ++ [(id, vis), (id, !vis)]) := by
  have hen2 : ∀ b2 : DOMBatcher, b2.enabled = true →
      (DOMBatcher.scheduleUpdate b2).enabled = true := by
    intro b2 h2
    rw [(scheduleUpdate_fields b2).2.2.2.2]
    exact h2
  refine ⟨?_, ?_, ?_, ?_, ?_⟩
  · intro id t1 t2
    rw [updateText_enabled_eq b id t1 hen]
    set b1 : DOMBatcher :=
      { b with pendingUpdates := assocSet b.pendingUpdates id (ContentMut.text t1) }
    rw [updateText_enabled_eq (DOMBatcher.scheduleUpdate b1) id t2 (hen2 b1 hen)]
    rw [(scheduleUpdate_fields _).1]
    exact assocGet_assocSet_self _ _ _
  · intro id p1 p2
    rw [updateStyles_enabled_eq b id p1 hen]
    set b1 : DOMBatcher :=
      { b with pendingStyles := assocSet b.pendingStyles id p1 }
    rw [updateStyles_enabled_eq (DOMBatcher.scheduleUpdate b1) id p2 (hen2 b1 hen)]
    rw [(scheduleUpdate_fields _).2.1]
    exact assocGet_assocSet_self _ _ _
  · intro id c1 c2
    rw [updateClasses_enabled_eq b id c1 hen]
    set b1 : DOMBatcher :=
      { b with pendingClasses := assocSet b.pendingClasses id c1 }
    rw [updateClasses_enabled_eq (DOMBatcher.scheduleUpdate b1) id c2 (hen2 b1 hen)]
    rw [(scheduleUpdate_fields _).2.2.1]
    exact assocGet_assocSet_self _ _ _
  · intro id vis
    by_cases hm : (id, vis) ∈ b.pendingVisibility
    · rw [updateVisibility_enabled_eq b id vis hen, if_pos hm]
      rw [updateVisibility_enabled_eq (DOMBatcher.scheduleUpdate b) id vis
        (hen2 b hen)]
      rw [if_pos (by rw [(scheduleUpdate_fields b).2.2.2.1]; exact hm)]
      rw [(scheduleUpdate_fields _).2.2.2.1]
    · rw [updateVisibility_enabled_eq b id vis hen, if_neg hm]
      set b1 : DOMBatcher :=
        { b with pendingVisibility := b.pendingVisibility ++ [(id, vis)] }
      rw [updateVisibility_enabled_eq (DOMBatcher.scheduleUpdate b1) id vis
        (hen2 b1 hen)]
      rw [if_pos (by
        rw [(scheduleUpdate_fields b1).2.2.2.1]
        exact List.mem_append_right _ (List.mem_singleton.mpr rfl))]
      rw [(scheduleUpdate_fields _).2.2.2.1]
  · intro id vis h1 h2
    rw [updateVisibility_enabled_eq b id vis hen, if_neg h1]
    set b1 : DOMBatcher :=
      { b with pendingVisibility := b.pendingVisibility ++ [(id, vis)] }
    rw [updateVisibility_enabled_eq (DOMBatcher.scheduleUpdate b1) id (!vis)
      (hen2 b1 hen)]
    rw [if_neg (by
      rw [(scheduleUpdate_fields b1).2.2.2.1]
      intro hmem
      rcases List.mem_append.mp hmem with hL | hR
      · exact h2 hL
      · have hp := List.mem_singleton.mp hR
        have hps : (!vis) = vis := congrArg Prod.snd hp
        simp at hps)]
    rw [(scheduleUpdate_fields _).2.2.2.1, (scheduleUpdate_fields _).2.2.2.1]
    simp [List.append_assoc]

/-- C6 — witness: on a fresh batcher, two text mutations coalesce to
the second payload, and two visibility mutations with different values
are both retained. -/
theorem C6_batch_coalescing_amended_witness :
    assocGet (((DOMBatcher.mk0.updateText "el" "a").1.updateText
        "el" "b").1).pendingUpdates "el" = some (.text "b") ∧
    ((DOMBatcher.mk0.updateVisibility "y" true).1.updateVisibility
        "y" false).1.pendingVisibility = [("y", true), ("y", false)] := by
  have h := C6_batch_coalescing_amended DOMBatcher.mk0 rfl
  refine ⟨h.1 "el" "a" "b", ?_⟩
  have h5 := h.2.2.2.2 "y" true (by decide) (by decide)
  simpa using h5

/-- Whatever `applyList` applied is drawn from the given queue. -/
theorem applyList_mem (throws : MutEvent → Bool) (l : List MutEvent)
    (e : MutEvent) (he : e ∈ (DOMBatcher.applyList throws l).1) : e ∈ l := by
  induction l with
  | nil => simp [DOMBatcher.applyList] at he
  | cons e2 es ih =>
      by_cases ht : throws e2 = true
      · simp [DOMBatcher.applyList, ht] at he
      · simp only [DOMBatcher.applyList, ht] at he
        simp only [Bool.false_eq_true, if_false, List.mem_cons] at he
        rcases he with he | he
        · exact he ▸ List.mem_cons_self _ _
        · exact List.mem_cons_of_mem _ (ih he)

/-- When nothing in the queue throws, everything is applied. -/
theorem applyList_all_ok (throws : MutEvent → Bool) (l : List MutEvent)
    (h : (DOMBatcher.applyList throws l).2 = true) :
    (DOMBatcher.applyList throws l).1 = l := by
  induction l with
  | nil => rfl
  | cons e es ih =>
      by_cases ht : throws e = true
      · simp [DOMBatcher.applyList, ht] at h
      · simp only [DOMBatcher.applyList, ht, Bool.false_eq_true, if_false] at h ⊢
        rw [ih h]

/-- C7 — counterexample.  With one visibility, one style and one text
mutation pending, a surface where the visibility mutation throws makes
`flush` apply *nothing* (the pending style and text mutations are not
applied in that flush) and leaves every queue uncleared — refuting the
per-category catch the claim describes. -/
theorem C7_flush_isolation_counterexample :
    (DOMBatcher.flush visThrows c7Batcher).2 = [] ∧
    (DOMBatcher.flush visThrows c7Batcher).1.pendingStyles
      = [("s", [("color", "red")])] ∧
    (DOMBatcher.flush visThrows c7Batcher).1.pendingUpdates
      = [("t", .text "T")] :=
  ⟨rfl, rfl, rfl⟩

/-- C7 — amended.  `flush` runs all four categories inside a *single*
`try/catch`: if an exception is raised while applying the visibility
mutations, the flush aborts — only the visibility mutations before the
throwing one were applied, no mutation of any remaining category is
applied, and no queue (not even visibility) is cleared.  When no
mutation throws, all four categories are applied in the fixed order
visibility → styles → classes → content and all queues are cleared. -/
theorem C7_flush_isolation_amended :
    (∀ (throws : MutEvent → Bool) (b : DOMBatcher),
       (DOMBatcher.applyList throws (DOMBatcher.visEvents b)).2 = false →
       (DOMBatcher.flush throws b).2
           = (DOMBatcher.applyList throws (DOMBatcher.visEvents b)).1 ∧
       (DOMBatcher.flush throws b).1.pendingVisibility = b.pendingVisibility ∧
       (DOMBatcher.flush throws b).1.pendingStyles = b.pendingStyles ∧
       (DOMBatcher.flush throws b).1.pendingClasses = b.pendingClasses ∧
       (DOMBatcher.flush throws b).1.pendingUpdates = b.pendingUpdates ∧
       (∀ e ∈ (DOMBatcher.flush throws b).2, e ∈ DOMBatcher.visEvents b)) ∧
    (∀ (throws : MutEvent → Bool) (b : DOMBatcher),
       (DOMBatcher.applyList throws (DOMBatcher.visEvents b)).2 = true →
       (DOMBatcher.applyList throws (DOMBatcher.styleEvents b)).2 = true →
       (DOMBatcher.applyList throws (DOMBatcher.classEvents b)).2 = true →
       (DOMBatcher.applyList throws (DOMBatcher.contentEvents b)).2 = true →
       DOMBatcher.flush throws b
         = (⟨[], [], [], [], false, b.enabled⟩,
            DOMBatcher.visEvents b ++ DOMBatcher.styleEvents b
              ++ DOMBatcher.classEvents b ++ DOMBatcher.contentEvents b)) := by
  constructor
  · intro throws b hfail
    have hfail2 : (DOMBatcher.applyList throws
        (DOMBatcher.visEvents { b with frameId := false })).2 = false := hfail
    have hflush : DOMBatcher.flush throws b
        = ({ b with frameId := false },
           (DOMBatcher.applyList throws
             (DOMBatcher.visEvents { b with frameId := false })).1) := by
      simp only [DOMBatcher.flush, hfail2, eq_self_iff_true, if_true]
    rw [hflush]
    refine ⟨rfl, rfl, rfl, rfl, rfl, ?_⟩
    intro e he
    exact applyList_mem throws _ e he
  · intro throws b h1 h2 h3 h4
    have h1b : (DOMBatcher.applyList throws
        (DOMBatcher.visEvents { b with frameId := false })).2 = true := h1
    have h2b : (DOMBatcher.applyList throws
        (DOMBatcher.styleEvents { { b with frameId := false } with
          pendingVisibility := [] })).2 = true := h2
    have h3b : (DOMBatcher.applyList throws
        (DOMBatcher.classEvents { { { b with frameId := false } with
          pendingVisibility := [] } with pendingStyles := [] })).2 = true := h3
    have h4b : (DOMBatcher.applyList throws
        (DOMBatcher.contentEvents { { { { b with frameId := false } with
          pendingVisibility := [] } with pendingStyles := [] } with
          pendingClasses := [] })).2 = true := h4
    simp only [DOMBatcher.flush, h1b, h2b, h3b, h4b, Bool.true_eq_false,
      if_false]
    rw [applyList_all_ok throws _ h1b, applyList_all_ok throws _ h2b,
      applyList_all_ok throws _ h3b, applyList_all_ok throws _ h4b]
    rfl

/-- C7 — witness: on the three-category batcher with a throwing
visibility surface, the style queue survives the flush untouched. -/
theorem C7_flush_isolation_amended_witness :
    (DOMBatcher.flush visThrows c7Batcher).1.pendingStyles
      = c7Batcher.pendingStyles :=
  (C7_flush_isolation_amended.1 visThrows c7Batcher rfl).2.2.1

/-- A rejected `load` leaves the live store untouched, as long as the
live categories are objects (the shape the constructor establishes;
with a `null` category, `Object.assign` inside the restore loop could
itself throw after partial merging). -/
theorem load_false_gs (gs0 : GameState) (sto : Option Raw)
    (hcat : catsAreObjects gs0.tree = true)
    (hfalse : (World.load ⟨gs0, sto⟩).1 = false) :
    (World.load ⟨gs0, sto⟩).2 = gs0 := by
  match sto with
  | none => rfl
  | some .unparsable => rfl
  | some (.parsed .vNull) => rfl
  | some (.parsed .vUndef) => rfl
  | some (.parsed .vNaN) => rfl
  | some (.parsed (.vNum q)) => rfl
  | some (.parsed (.vBool bb)) => rfl
  | some (.parsed (.vStr ss)) => rfl
  | some (.parsed (.vObj fs)) =>
      by_cases hb : (truthy (objGetD fs "state")
          && truthy (objGetD fs "version")) = true
      · exfalso
        simp only [World.load, jsIndex, hb, if_true] at hfalse
        have hobj : GameState.categoryNames.all
            (fun c => isObjVal (objGetD gs0.tree c)) = true := hcat
        have hnd : GameState.categoryNames.Nodup := by decide
        have := (mergeCats_spec GameState.categoryNames gs0.tree
          (objGetD fs "state") hobj hnd).1
        rw [this] at hfalse
        exact Bool.true_eq_false ▸ hfalse ▸ rfl
      · have hb2 : (truthy (objGetD fs "state")
            && truthy (objGetD fs "version")) = false :=
          Bool.eq_false_iff.mpr hb
        simp only [World.load, jsIndex, hb2, Bool.false_eq_true, if_false]

/-- C8 — counterexample.  The claim says a failed import mutates
neither the live state nor the stored envelope.  Importing a valid
encoding of a payload that `load` rejects returns `false`, yet the
stored envelope has already been replaced by the decoded payload
(`setItem` runs before validation): the stored payload now carries the
`garbage` key, which the previously saved envelope did not. -/
theorem C8_import_counterexample :
    (World.importSave c8World c8Arg).1 = false ∧
    rawHasOwn (World.importSave c8World c8Arg).2.storage "garbage" = true ∧
    rawHasOwn c8World.storage "garbage" = false ∧
    (World.importSave c8World c8Arg).2.storage ≠ c8World.storage := by
  refine ⟨rfl, rfl, rfl, ?_⟩
  intro h
  exact absurd (congrArg (fun o => rawHasOwn o "garbage") h) (by decide)

/-- C8 — amended.  If the decode step (`atob`) fails, `importSave`
returns `false` and mutates nothing.  If decoding succeeds, the decoded
payload is written to storage *unconditionally* before `load` runs, so
a failed import still replaces the stored envelope; the live state,
however, is untouched by any failed import (live categories being
objects, as constructed). -/
theorem C8_import_amended :
    (∀ w : World, World.importSave w .badEncoding = (false, w)) ∧
    (∀ (w : World) (r : Raw),
       (World.importSave w (.decoded r)).2.storage = some r) ∧
    (∀ (w : World) (arg : World.ImportArg),
       catsAreObjects w.gs.tree = true →
       (World.importSave w arg).1 = false →
       (World.importSave w arg).2.gs = w.gs) := by
  refine ⟨fun w => rfl, fun w r => rfl, ?_⟩
  intro w arg hcat hfalse
  match arg with
  | .badEncoding => rfl
  | .decoded r =>
      have h1 : (World.importSave w (.decoded r)).1
          = (World.load ⟨w.gs, some r⟩).1 := rfl
      have h2 : (World.importSave w (.decoded r)).2.gs
          = (World.load ⟨w.gs, some r⟩).2 := rfl
      rw [h2]
      rw [h1] at hfalse
      exact load_false_gs w.gs (some r) hcat hfalse

/-- C8 — witness: a failed import (decoded payload without envelope
fields) leaves the live store exactly as it was. -/
theorem C8_import_amended_witness :
    (World.importSave c8World c8Arg).2.gs = c8World.gs :=
  C8_import_amended.2.2 c8World c8Arg rfl rfl

/-- C9: for a known module name whose import (and optional initializer)
succeeds and which is not yet cached, the first `loadModule` call
returns the module, performs the import (and the initializer call if
the module exposes one) exactly once, and caches it; the second call
returns the same cached namespace object and performs no acquisition
step at all.  For names outside the dynamic-import switch, `loadModule`
returns `null` without caching and without error. -/
theorem C9_module_idempotence :
    (∀ (env : String → ImportOutcome) (pm : PhaseManager) (name : String)
       (m : Module),
       assocGet pm.loadedModules name = none →
       name ∈ PhaseManager.knownModuleNames →
       env name = .ok m false →
       (PhaseManager.loadModule env pm name).2.1 = some m ∧
       (PhaseManager.loadModule env
         (PhaseManager.loadModule env pm name).1 name).2.1 = some m ∧
       (PhaseManager.loadModule env pm name).2.2
         = AcqEvent.imported name ::
           (if m.hasInit then [AcqEvent.initialized name] else []) ∧
       (PhaseManager.loadModule env
         (PhaseManager.loadModule env pm name).1 name).2.2 = []) ∧
    (∀ (env : String → ImportOutcome) (pm : PhaseManager) (name : String),
       name ∉ PhaseManager.knownModuleNames →
       assocGet pm.loadedModules name = none →
       PhaseManager.loadModule env pm name = (pm, none, [])) := by
  constructor
  · intro env pm name m hnone hmem henv
    have h1 : PhaseManager.loadModule env pm name
        = ({ pm with loadedModules := assocSet pm.loadedModules name m },
           some m,
           AcqEvent.imported name ::
             (if m.hasInit then [AcqEvent.initialized name] else [])) := by
      simp only [PhaseManager.loadModule, hnone, henv]
      rw [if_pos hmem]
      simp
    have h2 : PhaseManager.loadModule env
        ({ pm with loadedModules := assocSet pm.loadedModules name m} :
          PhaseManager) name
        = ({ pm with loadedModules := assocSet pm.loadedModules name m },
           some m, []) := by
      simp only [PhaseManager.loadModule, assocGet_assocSet_self]
    rw [h1]
    exact ⟨rfl, by rw [h2], rfl, by rw [h2]⟩
  · intro env pm name hnot hnone
    simp only [PhaseManager.loadModule, hnone]
    rw [if_neg hnot]

/-- C9 — witness: loading `combat` twice in the all-imports-succeed
environment yields the same module both times; the first call imports
and initializes once, the second performs no acquisition. -/
theorem C9_module_idempotence_witness :
    (PhaseManager.loadModule c9Env
        (PhaseManager.loadModule c9Env c9PM "combat").1 "combat").2.1
      = some ⟨42, true⟩ ∧
    (PhaseManager.loadModule c9Env c9PM "combat").2.2
      = [AcqEvent.imported "combat", AcqEvent.initialized "combat"] := by
  have h := C9_module_idempotence.1 c9Env c9PM "combat" ⟨42, true⟩ rfl
    (by decide) rfl
  exact ⟨h.2.1, h.2.2.1.trans rfl⟩

/-- Splitting the per-handler fold at one handler: every handler after
it still runs, on whatever store that handler left behind. -/
theorem runUpdateHandlers_append (deltaTime : Int) (pre post : List UpdHandler)
    (h : UpdHandler) (gs : GameState) :
    GameLoop.runUpdateHandlers deltaTime (pre ++ h :: post) gs
      = GameLoop.runUpdateHandlers deltaTime post
          ((h deltaTime (GameLoop.runUpdateHandlers deltaTime pre gs)).1) := by
  unfold GameLoop.runUpdateHandlers
  rw [List.foldl_append, List.foldl_cons]

/-- C1: in a running loop at an instant where only the update activity
is due, if the registered update handlers are `pre ++ [hthrow] ++ post`
and `hthrow` throws (after leaving whatever partial mutations it made),
the iteration still completes: the exception is caught inside the
per-handler loop, every handler in `post` runs in the same iteration on
the store `hthrow` left, the update timestamp advances, and the next
frame is re-armed (third component `true`), so the scheduler continues
to the next iteration. -/
theorem C1_scheduler_isolation (L : GameLoop) (w : World) (now : Int)
    (pre post : List UpdHandler) (hthrow : UpdHandler) (gs1 : GameState)
    (ev : List (String × Nat))
    (hrun : L.running = true)
    (hhandlers : L.updateHandlers = pre ++ hthrow :: post)
    (hupd : now - L.lastUpdate > 0)
    (hrender : ¬ (now - L.lastRender ≥ DISPLAY_UPDATE_INTERVAL))
    (hautosave : ¬ (now - L.lastAutosave ≥ AUTOSAVE_INTERVAL))
    (hcleanup : ¬ (now - L.lastCleanup ≥ GameLoop.cleanupInterval))
    (hinc : GameState.increment w.gs "ui.ticks" 1 = .ok (gs1, ev))
    (_hthrew : (hthrow (now - L.lastUpdate)
        (GameLoop.runUpdateHandlers (now - L.lastUpdate) pre gs1)).2 = true) :
    GameLoop.loop L w now
      = .ok ({ L with lastUpdate := now },
             { w with gs :=
                        GameLoop.runUpdateHandlers (now - L.lastUpdate) post
                          ((hthrow (now - L.lastUpdate)
                            (GameLoop.runUpdateHandlers (now - L.lastUpdate)
                              pre gs1)).1) },
             true) := by
  have hupdate : GameLoop.update (now - L.lastUpdate) L.updateHandlers w.gs
      = .ok (GameLoop.runUpdateHandlers (now - L.lastUpdate) post
          ((hthrow (now - L.lastUpdate)
            (GameLoop.runUpdateHandlers (now - L.lastUpdate) pre gs1)).1)) := by
    simp only [GameLoop.update, hinc]
    rw [hhandlers, runUpdateHandlers_append]
  simp only [GameLoop.loop, hrun, Bool.true_eq_false, if_false,
    if_pos hupd, hupdate, if_neg hrender, if_neg hautosave, if_neg hcleanup]

/-- C1 — witness: one iteration of the concrete loop (a throwing
handler followed by a counter handler) completes with the next frame
re-armed, and the counter handler's effect is observed:
`resources.clips` was incremented despite the earlier handler's
exception. -/
theorem C1_scheduler_isolation_witness :
    (GameLoop.loop c1Loop c1World 10).map
        (fun r => r.2.1.gs.get "resources.clips") = .ok (.ok (.vNum ⟨1, 1⟩)) ∧
    (GameLoop.loop c1Loop c1World 10).map (fun r => r.2.2) = .ok true := by
  have h := C1_scheduler_isolation c1Loop c1World 10 [] [counterHandler]
    throwingHandler _ _ rfl rfl (by decide) (by decide) (by decide) (by decide)
    rfl rfl
  rw [h]
  exact ⟨rfl, rfl⟩

end Paperclips
